import Mathlib

/-!
Verification development for the core LBM kernel of the LatBo / LUMA solver
(file src/LatBo/src/GridObj_ops_lbm.cpp).  The embedding models the 2D build
of the code (dims == 2, serial build: BUILD_FOR_MPI not defined), with the
compile-time toggles PERIODIC_BOUNDARIES and INLET_DO_NOTHING carried as
run-time flags of the configuration.  Machine doubles are modelled as exact
rationals; the claims under study are about the algebraic structure of the
update rules, not about rounding.

Field arrays are modelled as total functions from integer lattice indices;
the sweeps of the C++ code (triple loops writing through flattened index
arithmetic) are modelled as left folds over the explicit index lists, writing
through pointwise functional updates, which mirrors the in-place mutation
order of the source.
-/

/-- Population-style field: value per site (i, j) and direction v. -/
abbrev FField : Type := ℤ → ℤ → ℕ → ℚ

/-- Scalar field: value per site (i, j). -/
abbrev SField : Type := ℤ → ℤ → ℚ

/-- Pointwise update of a population-style field at one slot. -/
def fUpd (fn : FField) (x y : ℤ) (v : ℕ) (val : ℚ) : FField :=
  fun a b w => if a = x ∧ b = y ∧ w = v then val else fn a b w

/-- Pointwise update of a scalar field at one site. -/
def sUpd (fn : SField) (x y : ℤ) (val : ℚ) : SField :=
  fun a b => if a = x ∧ b = y then val else fn a b

/-- Global configuration shared by all grid levels: the discrete velocity set
(vectors c, weights w, sound speed cs, opposite-direction permutation as in
GridUtils::getOpposite) and the compile-time feature toggles of the build. -/
structure Config where
  nVels : ℕ
  c : ℕ → ℕ → ℤ
  w : ℕ → ℚ
  cs : ℚ
  vOpp : ℕ → ℕ
  periodic : Bool
  inletDoNothing : Bool

/-- One grid level of class GridObj: lattice sizes, level number, local time
counter, relaxation rate omega, the site-type array LatTyp and the field
arrays.  Site-type codes follow the source: 0 solid, 1 coarse fluid, 2 fine
(covered by finer), 3 transition receiving from the coarser level, 4
transition to coarser (TL2lower), 5 solid variant, 7 do-nothing inlet. -/
structure Grid where
  N : ℕ
  M : ℕ
  level : ℕ
  t : ℕ
  omega : ℚ
  LatTyp : ℤ → ℤ → ℕ
  f : FField
  feq : FField
  force_i : FField
  force_xyz : FField
  rho : SField
  u : FField
  rho_timeav : SField
  ui_timeav : FField
  uiuj_timeav : FField

/-- List of the integers 0, 1, ..., n-1 as a loop index range. -/
def intsBelow (n : ℕ) : List ℤ :=
  (List.range n).map (fun k : ℕ => (k : ℤ))

/-- Inclusive integer range a..b, as used by the region loops over the
CoarseLims bounds. -/
def intRange (a b : ℤ) : List ℤ :=
  (List.range (b + 1 - a).toNat).map (fun k : ℕ => a + (k : ℤ))

/-- Equilibrium computation of the overload GridObj::LBM_collide(i,j,k,v)
(lines 467-518, 2D branch): feq = rho * w_v * (1 + A/cs^2 + B/(2 cs^4)) with
A the dot product of c_v and u and B the expanded quadratic term. -/
def LBM_collide_feq (cfg : Config) (g : Grid) (i j : ℤ) (v : ℕ) : ℚ :=
  ((cfg.c 0 v : ℚ) * g.u i j 0 + (cfg.c 1 v : ℚ) * g.u i j 1) |> fun A =>
  (((cfg.c 0 v : ℚ) ^ 2 - cfg.cs ^ 2) * (g.u i j 0) ^ 2 +
   ((cfg.c 1 v : ℚ) ^ 2 - cfg.cs ^ 2) * (g.u i j 1) ^ 2 +
   2 * (cfg.c 0 v : ℚ) * (cfg.c 1 v : ℚ) * g.u i j 0 * g.u i j 1) |> fun B =>
  g.rho i j * cfg.w v * (1 + A / cfg.cs ^ 2 + B / (2 * cfg.cs ^ 4))

/-- One direction of the BGK collision at one site (lines 441-451): writes the
new population and the recomputed equilibrium into the pair of buffers
(f_new, feq). -/
def collideStep (cfg : Config) (g : Grid) (s : FField × FField) (i j : ℤ) (v : ℕ) :
    FField × FField :=
  (LBM_collide_feq cfg g i j v) |> fun fe =>
  (fUpd s.1 i j v (-g.omega * (g.f i j v - fe) + g.f i j v + g.force_i i j v),
   fUpd s.2 i j v fe)

/-- One site of the BGK collision sweep: sites of type 2 or 3 are skipped
(populated by the finer level / by explode), every other site collides in
each direction. -/
def collideSite (cfg : Config) (g : Grid) (s : FField × FField) (i j : ℤ) :
    FField × FField :=
  if g.LatTyp i j = 2 ∨ g.LatTyp i j = 3 then s
  else (List.range cfg.nVels).foldl (fun s2 v => collideStep cfg g s2 i j v) s

/-- Embedding of GridObj::LBM_collide() (lines 406-463, BGK branch, USE_MRT
not defined): f_new starts as a copy of f, the sweep fills it together with
the feq member buffer, and at the end f is replaced by f_new. -/
def LBM_collide (cfg : Config) (g : Grid) : Grid :=
  ((intsBelow g.N).foldl
    (fun s i => (intsBelow g.M).foldl (fun s2 j => collideSite cfg g s2 i j) s)
    (g.f, g.feq)) |> fun s =>
  { g with f := s.1, feq := s.2 }

/-- One direction of the streaming sweep at one source site (lines 646-883,
serial 2D build): do-nothing-inlet identity copy, off-grid handling with
optional periodic wrap on the coarsest level, destination exclusions, and the
plain on-grid stream. -/
def streamStep (cfg : Config) (g : Grid) (fn : FField) (i j : ℤ) (v : ℕ) : FField :=
  if cfg.inletDoNothing = true ∧ g.LatTyp i j = 7 then
    fUpd fn i j v (g.f i j v)
  else if (g.N : ℤ) ≤ i + cfg.c 0 v ∨ i + cfg.c 0 v < 0 ∨
          (g.M : ℤ) ≤ j + cfg.c 1 v ∨ j + cfg.c 1 v < 0 then
    if cfg.periodic = true ∧ g.level = 0 ∧ g.LatTyp i j = 1 ∧
       g.LatTyp ((i + cfg.c 0 v + g.N) % (g.N : ℤ)) ((j + cfg.c 1 v + g.M) % (g.M : ℤ)) = 1 then
      fUpd fn ((i + cfg.c 0 v + g.N) % (g.N : ℤ)) ((j + cfg.c 1 v + g.M) % (g.M : ℤ)) v
        (g.f i j v)
    else
      fUpd fn i j (cfg.vOpp v) (g.f i j (cfg.vOpp v))
  else if g.LatTyp i j = 4 ∧ g.LatTyp (i + cfg.c 0 v) (j + cfg.c 1 v) = 4 then fn
  else if cfg.inletDoNothing = true ∧ g.LatTyp (i + cfg.c 0 v) (j + cfg.c 1 v) = 7 then fn
  else fUpd fn (i + cfg.c 0 v) (j + cfg.c 1 v) v (g.f i j v)

/-- One source site of the streaming sweep: a site of type 2 (covered by the
finer grid) streams nothing at all (the break at line 667), otherwise every
direction is processed in order. -/
def streamSite (cfg : Config) (g : Grid) (fn : FField) (i j : ℤ) : FField :=
  if g.LatTyp i j = 2 then fn
  else (List.range cfg.nVels).foldl (fun s v => streamStep cfg g s i j v) fn

/-- Embedding of GridObj::LBM_stream() (lines 609-898, serial 2D build): the
new-generation buffer starts as all zeros (line 633), the sweep fills it, and
f is replaced by it at the end (line 896). -/
def LBM_stream (cfg : Config) (g : Grid) : Grid :=
  ((intsBelow g.N).foldl
    (fun s i => (intsBelow g.M).foldl (fun s2 j => streamSite cfg g s2 i j) s)
    (fun _ _ _ => (0 : ℚ))) |> fun fres =>
  { g with f := fres }

/-- Incremental time-average update of lines 978-999: multiply the running
average by the completed step count t, add the new value, divide by t+1. -/
def taUpdate (t : ℕ) (avg val : ℚ) : ℚ :=
  (avg * (t : ℚ) + val) / ((t : ℚ) + 1)

/-- Density sum over all directions (lines 947-957). -/
def sumRho (cfg : Config) (g : Grid) (i j : ℤ) : ℚ :=
  (List.range cfg.nVels).foldl (fun a v => a + g.f i j v) 0

/-- Momentum flux sum in Cartesian direction d (lines 947-957). -/
def sumFlux (cfg : Config) (g : Grid) (i j : ℤ) (d : ℕ) : ℚ :=
  (List.range cfg.nVels).foldl (fun a v => a + (cfg.c d v : ℚ) * g.f i j v) 0

/-- Macroscopic density recovered at one site by the if-chain of LBM_macro:
type 2 masks to zero, types 0 and 5 pin the reference density 1, every other
type sums the populations. -/
def macroRho (cfg : Config) (g : Grid) (i j : ℤ) : ℚ :=
  if g.LatTyp i j = 2 then 0
  else if g.LatTyp i j = 0 ∨ g.LatTyp i j = 5 then 1
  else sumRho cfg g i j

/-- Macroscopic velocity component recovered at one site, including the
half-step Guo force correction rho * (1/2^level) * 0.5 * force_xyz of lines
962-974. -/
def macroVel (cfg : Config) (g : Grid) (i j : ℤ) (d : ℕ) : ℚ :=
  if g.LatTyp i j = 2 then 0
  else if g.LatTyp i j = 0 ∨ g.LatTyp i j = 5 then 0
  else
    (sumFlux cfg g i j d + sumRho cfg g i j * (1 / (2 : ℚ) ^ g.level) * (1 / 2) *
      g.force_xyz i j d) / sumRho cfg g i j

/-- Evolving state of the macroscopic sweep: density, velocity and the three
time-average arrays. -/
structure MacroState where
  rho : SField
  u : FField
  rta : SField
  uta : FField
  uuta : FField

/-- One site of the macroscopic sweep (lines 917-1004): recover rho and u,
then fold the fresh values into the running averages using the current time
step counter t; the pair index of uiuj_timeav enumerates (0,0), (0,1), (1,1)
in the order of the nested p, q loops. -/
def macroSiteStep (cfg : Config) (g : Grid) (s : MacroState) (i j : ℤ) : MacroState :=
  (macroRho cfg g i j) |> fun r =>
  (macroVel cfg g i j 0) |> fun u0 =>
  (macroVel cfg g i j 1) |> fun u1 =>
  { rho := sUpd s.rho i j r
    u := fUpd (fUpd s.u i j 0 u0) i j 1 u1
    rta := sUpd s.rta i j (taUpdate g.t (s.rta i j) r)
    uta := fUpd (fUpd s.uta i j 0 (taUpdate g.t (s.uta i j 0) u0)) i j 1
            (taUpdate g.t (s.uta i j 1) u1)
    uuta := fUpd (fUpd (fUpd s.uuta i j 0 (taUpdate g.t (s.uuta i j 0) (u0 * u0)))
            i j 1 (taUpdate g.t (s.uuta i j 1) (u0 * u1)))
            i j 2 (taUpdate g.t (s.uuta i j 2) (u1 * u1)) }

/-- Embedding of the full-grid overload GridObj::LBM_macro() (lines 903-1008,
2D build): sweep every site, recovering macroscopic quantities and updating
the running time averages in place. -/
def LBM_macro_sweep (cfg : Config) (g : Grid) : Grid :=
  ((intsBelow g.N).foldl
    (fun s i => (intsBelow g.M).foldl (fun s2 j => macroSiteStep cfg g s2 i j) s)
    ⟨g.rho, g.u, g.rho_timeav, g.ui_timeav, g.uiuj_timeav⟩) |> fun s =>
  { g with rho := s.rho, u := s.u, rho_timeav := s.rta,
           ui_timeav := s.uta, uiuj_timeav := s.uuta }

/-- Embedding of the single-site overload GridObj::LBM_macro(i,j,k) (lines
1015-1083, 2D build): same recovery if-chain at one site, no time-average
update. -/
def LBM_macro_site (cfg : Config) (g : Grid) (i j : ℤ) : Grid :=
  { g with rho := sUpd g.rho i j (macroRho cfg g i j),
           u := fUpd (fUpd g.u i j 0 (macroVel cfg g i j 0)) i j 1
                  (macroVel cfg g i j 1) }

/-- Modelled from the spec: GridUtils::getFineIndices is not under src; the
spec fixes the refinement ratio at exactly 2 along every axis, so the base
fine sibling of coarse site i (relative to the region start x_start) sits at
2 * (i - x_start). -/
def getFineIndices (i x_start j y_start : ℤ) : ℤ × ℤ :=
  (2 * (i - x_start), 2 * (j - y_start))

/-- Replication of one coarse population value into the 2^dims = 4 covered
fine siblings, in the write order of the source (lines 1146-1149). -/
def quadUpd (s : FField) (p q : ℤ) (v : ℕ) (cf : ℚ) : FField :=
  fUpd (fUpd (fUpd (fUpd s p q v cf) (p + 1) q v cf) p (q + 1) v cf)
    (p + 1) (q + 1) v cf

/-- One coarse site of the explosion loop (lines 1100-1155): a coarse site of
type 4 whose base fine sibling carries type 3 replicates every population
component into the four covered siblings; any other site writes nothing. -/
def explodeSite (cfg : Config) (coarse fine : Grid) (x0 y0 : ℤ) (s : FField)
    (i j : ℤ) : FField :=
  if coarse.LatTyp i j = 4 then
    (getFineIndices i x0 j y0) |> fun fi =>
    if fine.LatTyp fi.1 fi.2 = 3 then
      (List.range cfg.nVels).foldl
        (fun s3 v => quadUpd s3 fi.1 fi.2 v (coarse.f i j v)) s
    else s
  else s

/-- Embedding of GridObj::LBM_explode(RegionNumber) (lines 1088-1162, 2D
branch): loop over the coarse region bounded inclusively by (x0..x1, y0..y1)
(the CoarseLims of the fine grid), exploding every qualifying coarse site
into the fine population array.  Returns the updated fine grid. -/
def LBM_explode (cfg : Config) (coarse fine : Grid) (x0 x1 y0 y1 : ℤ) : Grid :=
  ((intRange x0 x1).foldl
    (fun s i => (intRange y0 y1).foldl
      (fun s2 j => explodeSite cfg coarse fine x0 y0 s2 i j) s)
    fine.f) |> fun ff =>
  { fine with f := ff }

/-- One coarse site of the coalesce loop (lines 1184-1243): at a coarse site
of type 4 or 5, every population component still holding the 0 sentinel is
overwritten with the average of the 4 covered fine siblings, divided by
pow(2, dims) = 4; nonzero components and other sites are left alone. -/
def coalesceSite (cfg : Config) (coarse fine : Grid) (x0 y0 : ℤ) (s : FField)
    (i j : ℤ) : FField :=
  if coarse.LatTyp i j = 4 ∨ coarse.LatTyp i j = 5 then
    (getFineIndices i x0 j y0) |> fun fi =>
    (List.range cfg.nVels).foldl
      (fun s3 v =>
        if s3 i j v = 0 then
          fUpd s3 i j v
            ((fine.f fi.1 fi.2 v + fine.f (fi.1 + 1) fi.2 v +
              fine.f fi.1 (fi.2 + 1) v + fine.f (fi.1 + 1) (fi.2 + 1) v) /
              (2 : ℚ) ^ 2)
        else s3) s
  else s

/-- Embedding of GridObj::LBM_coalesce(RegionNumber) (lines 1167-1246, 2D
branch): loop over the coarse region, restricting fine data into the coarse
population array in place.  Returns the updated coarse grid. -/
def LBM_coalesce (cfg : Config) (coarse fine : Grid) (x0 x1 y0 y1 : ℤ) : Grid :=
  ((intRange x0 x1).foldl
    (fun s i => (intRange y0 y1).foldl
      (fun s2 j => coalesceSite cfg coarse fine x0 y0 s2 i j) s)
    coarse.f) |> fun fc =>
  { coarse with f := fc }

/-- Events emitted by the multi-grid driver, tagged with the level (and
region index for the coupling operations). -/
inductive Event where
  | collide (lvl : ℕ)
  | explode (lvl reg : ℕ)
  | stream (lvl : ℕ)
  | coalesce (lvl reg : ℕ)
  | macroEv (lvl : ℕ)
deriving DecidableEq

/-- Static grid hierarchy: each node carries its list of child regions. -/
inductive GTree where
  | node : List GTree → GTree

mutual
/-- Trace semantics of GridObj::LBM_multi (lines 18-282, LBM kernel section):
one invocation at a given level emits the do-while body once on level 0 and
twice otherwise (count runs 1, 2 against the bound count < 3, with the break
at level 0), and advances the local tick counter accordingly.  The body is:
collide; if NumLev > level then for each region explode followed by the
recursive child invocation, then stream, then coalesce for each region; else
just stream; then the macroscopic update. -/
def LBM_multi (NumLev lvl t : ℕ) : GTree → List Event × ℕ
  | .node cs =>
    ([Event.collide lvl] ++
      (if lvl < NumLev then
        LBM_multi_regions NumLev lvl 0 cs ++ [Event.stream lvl] ++
          (List.range cs.length).map (Event.coalesce lvl)
      else [Event.stream lvl]) ++ [Event.macroEv lvl]) |> fun body =>
    if lvl = 0 then (body, t + 1) else (body ++ body, t + 2)

/-- Region loop of the driver (lines 91-100): explode region reg, then invoke
the full kernel on the child grid of that region. -/
def LBM_multi_regions (NumLev lvl reg : ℕ) : List GTree → List Event
  | [] => []
  | gchild :: rest =>
    Event.explode lvl reg :: ((LBM_multi NumLev (lvl + 1) 0 gchild).1 ++
      LBM_multi_regions NumLev lvl (reg + 1) rest)
end

/-- One execution of the do-while body of LBM_multi at a level, written out
so that the order of the phases can be stated: collide, the region coupling
(explode plus child invocations), stream, coalesce per region, macroscopic
update. -/
def LBM_multi_body (NumLev lvl : ℕ) : GTree → List Event
  | .node cs =>
    [Event.collide lvl] ++
      (if lvl < NumLev then
        LBM_multi_regions NumLev lvl 0 cs ++ [Event.stream lvl] ++
          (List.range cs.length).map (Event.coalesce lvl)
      else [Event.stream lvl]) ++ [Event.macroEv lvl]

/-- Concrete two-velocity configuration (velocities +x and -x, opposite
permutation swapping them) used to instantiate the theorems below on
concrete inputs. -/
def cfgW : Config :=
  { nVels := 2
    c := fun d v => if d = 0 then (if v = 0 then 1 else -1) else 0
    w := fun _ => 1 / 2
    cs := 1
    vOpp := fun v => if v = 0 then 1 else 0
    periodic := true
    inletDoNothing := false }

/-- Concrete one-velocity configuration with a resting velocity, used for the
coupling (explode/coalesce) instances. -/
def cfgE : Config :=
  { nVels := 1
    c := fun _ _ => 0
    w := fun _ => 1
    cs := 1
    vOpp := fun v => v
    periodic := false
    inletDoNothing := false }

/-- Concrete 2 x 1 all-fluid level-0 grid with a single marked population. -/
def gW : Grid :=
  { N := 2, M := 1, level := 0, t := 0, omega := 1
    LatTyp := fun _ _ => 1
    f := fun i j v => if i = 1 ∧ j = 0 ∧ v = 0 then 5 else 0
    feq := fun _ _ _ => 0
    force_i := fun _ _ _ => 0
    force_xyz := fun _ _ _ => 0
    rho := fun _ _ => 1
    u := fun _ _ _ => 0
    rho_timeav := fun _ _ => 0
    ui_timeav := fun _ _ _ => 0
    uiuj_timeav := fun _ _ _ => 0 }

/-- Concrete 2 x 1 grid whose two sites form a transition-to-coarser pair. -/
def gTL : Grid :=
  { gW with LatTyp := fun _ _ => 4, f := fun _ _ _ => 3 }

/-- Concrete 1 x 1 solid grid with junk populations and macroscopic fields,
used for the solid-site macroscopic instances. -/
def gS : Grid :=
  { gW with
    N := 1
    LatTyp := fun _ _ => 0
    f := fun _ _ v => (v : ℚ) + 2
    rho := fun _ _ => 9
    u := fun _ _ _ => 4 }

/-- Concrete 1 x 1 coarse grid holding one transition-to-coarser site with
population value 5. -/
def coarseE : Grid :=
  { gW with N := 1, LatTyp := fun _ _ => 4, f := fun _ _ _ => 5 }

/-- Concrete 2 x 2 fine grid whose base sibling carries the receiving tag 3
while the sibling at (1,0) is plain fluid; all populations start at 7. -/
def fineE : Grid :=
  { gW with
    N := 2
    M := 2
    level := 1
    LatTyp := fun i j => if i = 0 ∧ j = 0 then 3 else 1
    f := fun _ _ _ => 7 }

/-- Concrete 1 x 1 coarse grid with a transition site whose population holds
the 0 sentinel. -/
def coarseC : Grid :=
  { gW with N := 1, LatTyp := fun _ _ => 4, f := fun _ _ _ => 0 }

/-- Concrete 2 x 2 fine grid with sibling populations 1, 2, 3, 6 (mean 3). -/
def fineC : Grid :=
  { gW with
    N := 2
    M := 2
    level := 1
    LatTyp := fun _ _ => 1
    f := fun i j _ => if i = 0 ∧ j = 0 then 1 else if i = 1 ∧ j = 0 then 2
      else if i = 0 ∧ j = 1 then 3 else 6 }

/-- Concrete hierarchy: a root with one child region that has no further
children. -/
def ctree : GTree := GTree.node [GTree.node []]

/-- Spec-form equilibrium, written from the words of the specification: feq
equals rho * w_v * (1 + A/cs^2 + B/(2 cs^4)) with A the sum over d of
c_dv u_d and B the double sum over a, b of (c_av c_bv - cs^2 delta_ab)
u_a u_b; declared separately so the expansion in the source can be compared
against it. -/
def feqSpec (cfg : Config) (g : Grid) (i j : ℤ) (v : ℕ) : ℚ :=
  g.rho i j * cfg.w v *
    (1 + ((Finset.range 2).sum fun a => (cfg.c a v : ℚ) * g.u i j a) / cfg.cs ^ 2 +
      ((Finset.range 2).sum fun a => (Finset.range 2).sum fun b =>
        ((cfg.c a v : ℚ) * (cfg.c b v : ℚ) - cfg.cs ^ 2 * (if a = b then 1 else 0))
          * g.u i j a * g.u i j b) / (2 * cfg.cs ^ 4))

/-- Reading a population update at the updated slot gives the new value. -/
theorem fUpd_self (fn : FField) (x y : ℤ) (v : ℕ) (val : ℚ) :
    fUpd fn x y v val x y v = val := by
  simp [fUpd]

/-- Reading a population update away from the updated slot is unchanged. -/
theorem fUpd_ne (fn : FField) (x y : ℤ) (v : ℕ) (val : ℚ) {a b : ℤ} {w : ℕ}
    (h : ¬(a = x ∧ b = y ∧ w = v)) : fUpd fn x y v val a b w = fn a b w := by
  simp only [fUpd, if_neg h]

/-- Reading a scalar update at the updated site gives the new value. -/
theorem sUpd_self (fn : SField) (x y : ℤ) (val : ℚ) : sUpd fn x y val x y = val := by
  simp [sUpd]

/-- Reading a scalar update away from the updated site is unchanged. -/
theorem sUpd_ne (fn : SField) (x y : ℤ) (val : ℚ) {a b : ℤ}
    (h : ¬(a = x ∧ b = y)) : sUpd fn x y val a b = fn a b := by
  simp only [sUpd, if_neg h]

/-- Invariant preservation along a left fold. -/
theorem foldl_pres {σ α : Type _} (step : σ → α → σ) (P : σ → Prop) :
    ∀ (l : List α) (s : σ), (∀ s2 b, b ∈ l → P s2 → P (step s2 b)) → P s →
      P (l.foldl step s)
  | [], s, _, hs => hs
  | b :: l, s, h, hs =>
    foldl_pres step P l (step s b) (fun s2 c hc => h s2 c (List.mem_cons_of_mem _ hc))
      (h s b (List.mem_cons_self _ _) hs)

/-- Two-phase invariant along a left fold over a duplicate-free list: the
invariant P holds until the distinguished element a is processed, processing
a establishes Q, and Q is preserved afterwards. -/
theorem foldl_phase {σ α : Type _} (step : σ → α → σ) (P Q : σ → Prop) (a : α) :
    ∀ (l : List α) (s : σ), l.Nodup → a ∈ l →
      (∀ s2 b, b ∈ l → b ≠ a → P s2 → P (step s2 b)) →
      (∀ s2, P s2 → Q (step s2 a)) →
      (∀ s2 b, b ∈ l → b ≠ a → Q s2 → Q (step s2 b)) →
      P s → Q (l.foldl step s)
  | [], _, _, ha, _, _, _, _ => absurd ha (List.not_mem_nil a)
  | b :: l, s, hnd, ha, hP, hPQ, hQ, hs => by
    rcases List.mem_cons.mp ha with hba | hal
    · subst hba
      have hnotin : a ∉ l := (List.nodup_cons.mp hnd).1
      exact foldl_pres step Q l (step s a)
        (fun s2 c hc hq => hQ s2 c (List.mem_cons_of_mem _ hc)
          (fun hca => hnotin (hca ▸ hc)) hq)
        (hPQ s hs)
    · by_cases hba : b = a
      · subst hba
        have hnotin : b ∉ l := (List.nodup_cons.mp hnd).1
        exact absurd hal hnotin
      · exact foldl_phase step P Q a l (step s b) (List.nodup_cons.mp hnd).2 hal
          (fun s2 c hc hca => hP s2 c (List.mem_cons_of_mem _ hc) hca)
          hPQ
          (fun s2 c hc hca => hQ s2 c (List.mem_cons_of_mem _ hc) hca)
          (hP s b (List.mem_cons_self _ _) hba hs)

/-- Membership in the loop range 0..n-1. -/
theorem mem_intsBelow {n : ℕ} {x : ℤ} : x ∈ intsBelow n ↔ 0 ≤ x ∧ x < (n : ℤ) := by
  simp only [intsBelow, List.mem_map, List.mem_range]
  constructor
  · rintro ⟨k, hk, rfl⟩; omega
  · rintro ⟨h0, hn⟩; exact ⟨x.toNat, by omega, by omega⟩

/-- The loop range 0..n-1 has no duplicates. -/
theorem nodup_intsBelow (n : ℕ) : (intsBelow n).Nodup := by
  simp only [intsBelow]
  exact (List.nodup_range n).map (fun a b h => by exact_mod_cast h)

/-- Membership in the inclusive region range a..b. -/
theorem mem_intRange {a b x : ℤ} : x ∈ intRange a b ↔ a ≤ x ∧ x ≤ b := by
  simp only [intRange, List.mem_map, List.mem_range]
  constructor
  · rintro ⟨k, hk, rfl⟩; omega
  · rintro ⟨h0, hb⟩; exact ⟨(x - a).toNat, by omega, by omega⟩

/-- The inclusive region range a..b has no duplicates. -/
theorem nodup_intRange (a b : ℤ) : (intRange a b).Nodup := by
  simp only [intRange]
  exact (List.nodup_range _).map (fun p q h => by omega)

/-- Euclidean remainder bounds for a positive modulus. -/
theorem emodBounds {N : ℤ} (hN : 0 < N) (a : ℤ) : 0 ≤ a % N ∧ a % N < N :=
  ⟨Int.emod_nonneg a (by omega), Int.emod_lt_of_pos a hN⟩

/-- Wrapping an in-range index forward by c and back by c returns it. -/
theorem wrapRT (n i c : ℤ) (h0 : 0 ≤ i) (hn : i < n) :
    ((i + c + n) % n - c + n) % n = i := by
  have h1 : (i + c + n) % n = (i + c) % n := by simp
  have h2 : ((i + c) % n - c + n) % n = ((i + c) % n - c) % n := by simp
  have h3 : ((i + c) % n - c) % n = (i + c - c) % n := by
    conv_rhs => rw [Int.sub_emod]
    rw [Int.sub_emod ((i + c) % n) c, Int.emod_emod_of_dvd _ dvd_rfl]
  have h4 : i + c - c = i := by ring
  rw [h1, h2, h3, h4, Int.emod_eq_of_lt h0 hn]

/-- Wrapped forward images of two in-range indices agree only if the indices
agree. -/
theorem shiftInj (n x y c : ℤ) (hx : 0 ≤ x) (hxn : x < n) (hy : 0 ≤ y) (hyn : y < n)
    (h : (x + c + n) % n = (y + c + n) % n) : x = y := by
  have hx2 := wrapRT n x c hx hxn
  have hy2 := wrapRT n y c hy hyn
  rw [h] at hx2
  omega

/-- An in-range value is its own remainder. -/
theorem emodId {N x : ℤ} (hx : 0 ≤ x) (hxN : x < N) : x % N = x :=
  Int.emod_eq_of_lt hx hxN

/-- Value of the streamed field at one slot, given a single establishing
iteration (i, j, v) and preservation by every other iteration of the sweep. -/
theorem stream_slot_target (cfg : Config) (g : Grid) (X Y : ℤ) (W : ℕ) (tv : ℚ)
    (i j : ℤ) (v : ℕ)
    (hi0 : 0 ≤ i) (hiN : i < (g.N : ℤ)) (hj0 : 0 ≤ j) (hjM : j < (g.M : ℤ))
    (hv : v < cfg.nVels) (hty2 : g.LatTyp i j ≠ 2)
    (hset : ∀ s : FField, (streamStep cfg g s i j v) X Y W = tv)
    (hpres : ∀ (i2 j2 : ℤ) (v2 : ℕ), 0 ≤ i2 → i2 < (g.N : ℤ) → 0 ≤ j2 →
      j2 < (g.M : ℤ) → v2 < cfg.nVels → ¬(i2 = i ∧ j2 = j ∧ v2 = v) →
      ∀ s : FField, s X Y W = tv → (streamStep cfg g s i2 j2 v2) X Y W = tv) :
    (LBM_stream cfg g).f X Y W = tv := by
  show ((intsBelow g.N).foldl
    (fun s i => (intsBelow g.M).foldl (fun s2 j => streamSite cfg g s2 i j) s)
    (fun _ _ _ => (0 : ℚ))) X Y W = tv
  refine foldl_phase _ (fun _ => True) (fun s : FField => s X Y W = tv) i (intsBelow g.N) _
    (nodup_intsBelow _) (mem_intsBelow.mpr ⟨hi0, hiN⟩) (fun _ _ _ _ _ => trivial)
    ?htrans ?hkeep trivial
  case htrans =>
    intro s _
    refine foldl_phase _ (fun _ => True) (fun s2 : FField => s2 X Y W = tv) j (intsBelow g.M) _
      (nodup_intsBelow _) (mem_intsBelow.mpr ⟨hj0, hjM⟩) (fun _ _ _ _ _ => trivial)
      ?_ ?_ trivial
    · intro s2 _
      show (streamSite cfg g s2 i j) X Y W = tv
      rw [streamSite, if_neg hty2]
      refine foldl_phase _ (fun _ => True) (fun s3 : FField => s3 X Y W = tv) v
        (List.range cfg.nVels) _ (List.nodup_range _) (List.mem_range.mpr hv)
        (fun _ _ _ _ _ => trivial) (fun s3 _ => hset s3) ?_ trivial
      intro s3 v2 hv2 hvne hs3
      exact hpres i j v2 hi0 hiN hj0 hjM (List.mem_range.mp hv2)
        (fun hc => hvne hc.2.2) s3 hs3
    · intro s2 j2 hj2 hjne hs2
      show (streamSite cfg g s2 i j2) X Y W = tv
      rw [streamSite]
      split
      · exact hs2
      · refine foldl_pres _ (fun s3 : FField => s3 X Y W = tv) (List.range cfg.nVels) s2
          ?_ hs2
        intro s3 v2 hv2 hs3
        exact hpres i j2 v2 hi0 hiN (mem_intsBelow.mp hj2).1 (mem_intsBelow.mp hj2).2
          (List.mem_range.mp hv2) (fun hc => hjne hc.2.1) s3 hs3
  case hkeep =>
    intro s i2 hi2 hine hs
    refine foldl_pres _ (fun s2 : FField => s2 X Y W = tv) (intsBelow g.M) s ?_ hs
    intro s2 j2 hj2 hs2
    show (streamSite cfg g s2 i2 j2) X Y W = tv
    rw [streamSite]
    split
    · exact hs2
    · refine foldl_pres _ (fun s3 : FField => s3 X Y W = tv) (List.range cfg.nVels) s2 ?_ hs2
      intro s3 v2 hv2 hs3
      exact hpres i2 j2 v2 (mem_intsBelow.mp hi2).1 (mem_intsBelow.mp hi2).2
        (mem_intsBelow.mp hj2).1 (mem_intsBelow.mp hj2).2 (List.mem_range.mp hv2)
        (fun hc => hine hc.1) s3 hs3

/-- A slot never written by any iteration of the streaming sweep holds the 0
that the fresh buffer was initialised with. -/
theorem stream_slot_zero (cfg : Config) (g : Grid) (X Y : ℤ) (W : ℕ)
    (hpres : ∀ (i2 j2 : ℤ) (v2 : ℕ), 0 ≤ i2 → i2 < (g.N : ℤ) → 0 ≤ j2 →
      j2 < (g.M : ℤ) → v2 < cfg.nVels →
      ∀ s : FField, s X Y W = 0 → (streamStep cfg g s i2 j2 v2) X Y W = 0) :
    (LBM_stream cfg g).f X Y W = 0 := by
  show ((intsBelow g.N).foldl
    (fun s i => (intsBelow g.M).foldl (fun s2 j => streamSite cfg g s2 i j) s)
    (fun _ _ _ => (0 : ℚ))) X Y W = 0
  refine foldl_pres _ (fun s : FField => s X Y W = 0) (intsBelow g.N) _ ?_ rfl
  intro s i2 hi2 hs
  refine foldl_pres _ (fun s2 : FField => s2 X Y W = 0) (intsBelow g.M) s ?_ hs
  intro s2 j2 hj2 hs2
  show (streamSite cfg g s2 i2 j2) X Y W = 0
  rw [streamSite]
  split
  · exact hs2
  · refine foldl_pres _ (fun s3 : FField => s3 X Y W = 0) (List.range cfg.nVels) s2 ?_ hs2
    intro s3 v2 hv2 hs3
    exact hpres i2 j2 v2 (mem_intsBelow.mp hi2).1 (mem_intsBelow.mp hi2).2
      (mem_intsBelow.mp hj2).1 (mem_intsBelow.mp hj2).2 (List.mem_range.mp hv2) s3 hs3

/-- Preservation half for the periodic off-grid case: once the wrapped
destination slot holds the streamed value, no other iteration of the sweep
overwrites it. -/
theorem streamC3a_pres (cfg : Config) (g : Grid)
    (hopp : ∀ v2, v2 < cfg.nVels → cfg.vOpp v2 < cfg.nVels ∧
      cfg.vOpp (cfg.vOpp v2) = v2 ∧ cfg.c 0 (cfg.vOpp v2) = -(cfg.c 0 v2) ∧
      cfg.c 1 (cfg.vOpp v2) = -(cfg.c 1 v2))
    (i j : ℤ) (v : ℕ)
    (hi0 : 0 ≤ i) (hiN : i < (g.N : ℤ)) (hj0 : 0 ≤ j) (hjM : j < (g.M : ℤ))
    (hv : v < cfg.nVels)
    (hoff : (g.N : ℤ) ≤ i + cfg.c 0 v ∨ i + cfg.c 0 v < 0 ∨
            (g.M : ℤ) ≤ j + cfg.c 1 v ∨ j + cfg.c 1 v < 0)
    (hperB : cfg.periodic = true) (hlvl : g.level = 0) (hty1 : g.LatTyp i j = 1)
    (htyp : g.LatTyp ((i + cfg.c 0 v + g.N) % (g.N : ℤ))
      ((j + cfg.c 1 v + g.M) % (g.M : ℤ)) = 1)
    (i2 j2 : ℤ) (v2 : ℕ) (hi20 : 0 ≤ i2) (hi2N : i2 < (g.N : ℤ)) (hj20 : 0 ≤ j2)
    (hj2M : j2 < (g.M : ℤ)) (hv2 : v2 < cfg.nVels)
    (hne : ¬(i2 = i ∧ j2 = j ∧ v2 = v)) (s : FField)
    (hs : s ((i + cfg.c 0 v + g.N) % (g.N : ℤ)) ((j + cfg.c 1 v + g.M) % (g.M : ℤ)) v
      = g.f i j v) :
    (streamStep cfg g s i2 j2 v2) ((i + cfg.c 0 v + g.N) % (g.N : ℤ))
      ((j + cfg.c 1 v + g.M) % (g.M : ℤ)) v = g.f i j v := by
  have hN : (0 : ℤ) < g.N := by omega
  have hM : (0 : ℤ) < g.M := by omega
  have hpx := emodBounds hN (i + cfg.c 0 v + g.N)
  have hpy := emodBounds hM (j + cfg.c 1 v + g.M)
  rw [streamStep]
  split_ifs with h1 h2 h3 h4 h5
  · -- do-nothing-inlet identity at the source (i2, j2)
    simp only [fUpd]
    rw [if_neg]
    · exact hs
    rintro ⟨he1, he2, _⟩
    rw [← he1, ← he2] at h1
    omega
  · -- periodic wrapped write from (i2, j2, v2)
    simp only [fUpd]
    rw [if_neg]
    · exact hs
    rintro ⟨he1, he2, he3⟩
    subst he3
    exact hne ⟨shiftInj _ i2 i _ hi20 hi2N hi0 hiN he1.symm,
      shiftInj _ j2 j _ hj20 hj2M hj0 hjM he2.symm, rfl⟩
  · -- off-grid retain write at (i2, j2, vOpp v2)
    simp only [fUpd]
    rw [if_neg]
    · exact hs
    rintro ⟨he1, he2, he3⟩
    -- the hit forces v2 = vOpp v and (i2, j2) to be the wrapped destination,
    -- whence the periodic condition of this iteration holds, contradicting h3
    have hvo : cfg.vOpp v = v2 := by
      rw [he3]; exact (hopp v2 hv2).2.1
    have hc0 : cfg.c 0 v2 = -(cfg.c 0 v) := by
      rw [← hvo]; exact (hopp v hv).2.2.1
    have hc1 : cfg.c 1 v2 = -(cfg.c 1 v) := by
      rw [← hvo]; exact (hopp v hv).2.2.2
    refine h3 ⟨hperB, hlvl, ?_, ?_⟩
    · rw [← he1, ← he2]; exact htyp
    · have hwx : (i2 + cfg.c 0 v2 + g.N) % (g.N : ℤ) = i := by
        rw [hc0, ← he1]
        have := wrapRT (g.N : ℤ) i (cfg.c 0 v) hi0 hiN
        rw [show (i + cfg.c 0 v + ↑g.N) % (g.N : ℤ) - cfg.c 0 v + ↑g.N
            = (i + cfg.c 0 v + ↑g.N) % (g.N : ℤ) + -cfg.c 0 v + ↑g.N by ring] at this
        exact this
      have hwy : (j2 + cfg.c 1 v2 + g.M) % (g.M : ℤ) = j := by
        rw [hc1, ← he2]
        have := wrapRT (g.M : ℤ) j (cfg.c 1 v) hj0 hjM
        rw [show (j + cfg.c 1 v + ↑g.M) % (g.M : ℤ) - cfg.c 1 v + ↑g.M
            = (j + cfg.c 1 v + ↑g.M) % (g.M : ℤ) + -cfg.c 1 v + ↑g.M by ring] at this
        exact this
      rw [hwx, hwy]; exact hty1
  · exact hs
  · exact hs
  · -- plain on-grid stream from (i2, j2, v2)
    simp only [fUpd]
    rw [if_neg]
    · exact hs
    rintro ⟨he1, he2, he3⟩
    subst he3
    -- the written destination (i2 + c, j2 + c) equals the wrapped slot, so
    -- (i2, j2) is congruent to (i, j) and the source destination is on-grid,
    -- contradicting hoff
    have hx : i2 = i := by
      refine shiftInj (g.N : ℤ) i2 i (cfg.c 0 v) hi20 hi2N hi0 hiN ?_
      rw [show i2 + cfg.c 0 v + (g.N : ℤ) = (i2 + cfg.c 0 v) + g.N by ring, ← he1]
      have h6 : ((i + cfg.c 0 v + ↑g.N) % (g.N : ℤ) + ↑g.N) % (g.N : ℤ)
          = (i + cfg.c 0 v + ↑g.N) % (g.N : ℤ) % (g.N : ℤ) := by simp
      rw [h6, Int.emod_emod_of_dvd _ dvd_rfl]
    have hy : j2 = j := by
      refine shiftInj (g.M : ℤ) j2 j (cfg.c 1 v) hj20 hj2M hj0 hjM ?_
      rw [show j2 + cfg.c 1 v + (g.M : ℤ) = (j2 + cfg.c 1 v) + g.M by ring, ← he2]
      have h6 : ((j + cfg.c 1 v + ↑g.M) % (g.M : ℤ) + ↑g.M) % (g.M : ℤ)
          = (j + cfg.c 1 v + ↑g.M) % (g.M : ℤ) % (g.M : ℤ) := by simp
      rw [h6, Int.emod_emod_of_dvd _ dvd_rfl]
    subst hx; subst hy
    rcases hoff with h | h | h | h
    · exact h2 (Or.inl h)
    · exact h2 (Or.inr (Or.inl h))
    · exact h2 (Or.inr (Or.inr (Or.inl h)))
    · exact h2 (Or.inr (Or.inr (Or.inr h)))

/-- Preservation half for the off-grid retain case: the rewritten
opposite-direction slot at the source keeps its prior value through every
other iteration of the sweep. -/
theorem streamC3b_pres (cfg : Config) (g : Grid)
    (hopp : ∀ v2, v2 < cfg.nVels → cfg.vOpp v2 < cfg.nVels ∧
      cfg.vOpp (cfg.vOpp v2) = v2 ∧ cfg.c 0 (cfg.vOpp v2) = -(cfg.c 0 v2) ∧
      cfg.c 1 (cfg.vOpp v2) = -(cfg.c 1 v2))
    (i j : ℤ) (v : ℕ)
    (hi0 : 0 ≤ i) (hiN : i < (g.N : ℤ)) (hj0 : 0 ≤ j) (hjM : j < (g.M : ℤ))
    (hv : v < cfg.nVels)
    (hoff : (g.N : ℤ) ≤ i + cfg.c 0 v ∨ i + cfg.c 0 v < 0 ∨
            (g.M : ℤ) ≤ j + cfg.c 1 v ∨ j + cfg.c 1 v < 0)
    (hty7 : ¬(cfg.inletDoNothing = true ∧ g.LatTyp i j = 7))
    (hnp : ¬(cfg.periodic = true ∧ g.level = 0 ∧ g.LatTyp i j = 1 ∧
      g.LatTyp ((i + cfg.c 0 v + g.N) % (g.N : ℤ))
        ((j + cfg.c 1 v + g.M) % (g.M : ℤ)) = 1))
    (i2 j2 : ℤ) (v2 : ℕ) (hi20 : 0 ≤ i2) (hi2N : i2 < (g.N : ℤ)) (hj20 : 0 ≤ j2)
    (hj2M : j2 < (g.M : ℤ)) (hv2 : v2 < cfg.nVels)
    (hne : ¬(i2 = i ∧ j2 = j ∧ v2 = v)) (s : FField)
    (hs : s i j (cfg.vOpp v) = g.f i j (cfg.vOpp v)) :
    (streamStep cfg g s i2 j2 v2) i j (cfg.vOpp v) = g.f i j (cfg.vOpp v) := by
  have hN : (0 : ℤ) < g.N := by omega
  have hM : (0 : ℤ) < g.M := by omega
  rw [streamStep]
  split_ifs with h1 h2 h3 h4 h5
  · -- do-nothing-inlet identity at the source (i2, j2)
    simp only [fUpd]
    rw [if_neg]
    · exact hs
    rintro ⟨he1, he2, _⟩
    rw [he1, he2] at hty7
    exact hty7 h1
  · -- periodic wrapped write from (i2, j2, v2)
    simp only [fUpd]
    rw [if_neg]
    · exact hs
    rintro ⟨he1, he2, he3⟩
    have hvo : cfg.vOpp v = v2 := he3
    have hc0 : cfg.c 0 v2 = -(cfg.c 0 v) := by
      rw [← hvo]; exact (hopp v hv).2.2.1
    have hc1 : cfg.c 1 v2 = -(cfg.c 1 v) := by
      rw [← hvo]; exact (hopp v hv).2.2.2
    have he1x : (i2 - cfg.c 0 v + g.N) % (g.N : ℤ) = i := by
      rw [show i2 - cfg.c 0 v + (g.N : ℤ) = i2 + cfg.c 0 v2 + g.N by rw [hc0]; ring]
      exact he1.symm
    have he2y : (j2 - cfg.c 1 v + g.M) % (g.M : ℤ) = j := by
      rw [show j2 - cfg.c 1 v + (g.M : ℤ) = j2 + cfg.c 1 v2 + g.M by rw [hc1]; ring]
      exact he2.symm
    have hrx := wrapRT (g.N : ℤ) i2 (-(cfg.c 0 v)) hi20 hi2N
    have hry := wrapRT (g.M : ℤ) j2 (-(cfg.c 1 v)) hj20 hj2M
    rw [show i2 + -cfg.c 0 v + (g.N : ℤ) = i2 - cfg.c 0 v + g.N by ring, he1x,
      show i - -cfg.c 0 v + (g.N : ℤ) = i + cfg.c 0 v + g.N by ring] at hrx
    rw [show j2 + -cfg.c 1 v + (g.M : ℤ) = j2 - cfg.c 1 v + g.M by ring, he2y,
      show j - -cfg.c 1 v + (g.M : ℤ) = j + cfg.c 1 v + g.M by ring] at hry
    rcases h3 with ⟨hb, hl, hA, hB⟩
    rw [← hvo] at hB
    rw [(hopp v hv).2.2.1, (hopp v hv).2.2.2] at hB
    rw [show i2 + -cfg.c 0 v + (g.N : ℤ) = i2 - cfg.c 0 v + g.N by ring,
      show j2 + -cfg.c 1 v + (g.M : ℤ) = j2 - cfg.c 1 v + g.M by ring,
      he1x, he2y] at hB
    rw [← hrx, ← hry] at hA
    exact hnp ⟨hb, hl, hB, hA⟩
  · -- off-grid retain write at (i2, j2, vOpp v2)
    simp only [fUpd]
    rw [if_neg]
    · exact hs
    rintro ⟨he1, he2, he3⟩
    have hvv : v = v2 := by
      have h6 := congrArg cfg.vOpp he3
      rw [(hopp v hv).2.1, (hopp v2 hv2).2.1] at h6
      exact h6
    exact hne ⟨he1.symm, he2.symm, hvv.symm⟩
  · exact hs
  · exact hs
  · -- plain on-grid stream from (i2, j2, v2)
    simp only [fUpd]
    rw [if_neg]
    · exact hs
    rintro ⟨he1, he2, he3⟩
    have hc0 : cfg.c 0 v2 = -(cfg.c 0 v) := by
      rw [← he3]; exact (hopp v hv).2.2.1
    have hc1 : cfg.c 1 v2 = -(cfg.c 1 v) := by
      rw [← he3]; exact (hopp v hv).2.2.2
    rw [hc0] at he1
    rw [hc1] at he2
    have hx : i2 = i + cfg.c 0 v := by omega
    have hy : j2 = j + cfg.c 1 v := by omega
    omega

/-- Preservation for the skipped transition-to-coarser transfer: no iteration
of the sweep writes the destination slot of a skipped type-4 to type-4
stream, so it keeps the 0 of the fresh buffer. -/
theorem streamC10_pres (cfg : Config) (g : Grid)
    (hopp : ∀ v2, v2 < cfg.nVels → cfg.vOpp v2 < cfg.nVels ∧
      cfg.vOpp (cfg.vOpp v2) = v2 ∧ cfg.c 0 (cfg.vOpp v2) = -(cfg.c 0 v2) ∧
      cfg.c 1 (cfg.vOpp v2) = -(cfg.c 1 v2))
    (x y : ℤ) (w : ℕ)
    (hx0 : 0 ≤ x) (hxN : x < (g.N : ℤ)) (hy0 : 0 ≤ y) (hyM : y < (g.M : ℤ))
    (hw : w < cfg.nVels)
    (hs0 : 0 ≤ x - cfg.c 0 w) (hsN : x - cfg.c 0 w < (g.N : ℤ))
    (ht0 : 0 ≤ y - cfg.c 1 w) (htM : y - cfg.c 1 w < (g.M : ℤ))
    (htyS : g.LatTyp (x - cfg.c 0 w) (y - cfg.c 1 w) = 4)
    (htyX : g.LatTyp x y = 4)
    (i2 j2 : ℤ) (v2 : ℕ) (hi20 : 0 ≤ i2) (hi2N : i2 < (g.N : ℤ)) (hj20 : 0 ≤ j2)
    (hj2M : j2 < (g.M : ℤ)) (hv2 : v2 < cfg.nVels) (s : FField)
    (hs : s x y w = 0) : (streamStep cfg g s i2 j2 v2) x y w = 0 := by
  rw [streamStep]
  split_ifs with h1 h2 h3 h4 h5
  · -- do-nothing-inlet identity at the source (i2, j2)
    simp only [fUpd]
    rw [if_neg]
    · exact hs
    rintro ⟨he1, he2, _⟩
    rw [← he1, ← he2] at h1
    omega
  · -- periodic wrapped write from (i2, j2, v2)
    simp only [fUpd]
    rw [if_neg]
    · exact hs
    rintro ⟨he1, he2, he3⟩
    subst he3
    have hxw : ((x - cfg.c 0 w) + cfg.c 0 w + g.N) % (g.N : ℤ) = x := by
      rw [show x - cfg.c 0 w + cfg.c 0 w + (g.N : ℤ) = x + g.N by ring]
      have h6 : (x + (g.N : ℤ)) % (g.N : ℤ) = x % (g.N : ℤ) := by simp
      rw [h6, emodId hx0 hxN]
    have hyw : ((y - cfg.c 1 w) + cfg.c 1 w + g.M) % (g.M : ℤ) = y := by
      rw [show y - cfg.c 1 w + cfg.c 1 w + (g.M : ℤ) = y + g.M by ring]
      have h6 : (y + (g.M : ℤ)) % (g.M : ℤ) = y % (g.M : ℤ) := by simp
      rw [h6, emodId hy0 hyM]
    have hi2x : i2 = x - cfg.c 0 w := by
      refine shiftInj (g.N : ℤ) i2 (x - cfg.c 0 w) (cfg.c 0 w) hi20 hi2N hs0 hsN ?_
      rw [hxw, ← he1]
    have hj2y : j2 = y - cfg.c 1 w := by
      refine shiftInj (g.M : ℤ) j2 (y - cfg.c 1 w) (cfg.c 1 w) hj20 hj2M ht0 htM ?_
      rw [hyw, ← he2]
    rw [hi2x, hj2y] at h2
    rcases h2 with h | h | h | h <;> omega
  · -- off-grid retain write at (i2, j2, vOpp v2)
    simp only [fUpd]
    rw [if_neg]
    · exact hs
    rintro ⟨he1, he2, he3⟩
    have hc0 : cfg.c 0 v2 = -(cfg.c 0 w) := by
      have h6 := (hopp v2 hv2).2.2.1
      rw [← he3] at h6
      omega
    have hc1 : cfg.c 1 v2 = -(cfg.c 1 w) := by
      have h6 := (hopp v2 hv2).2.2.2
      rw [← he3] at h6
      omega
    rw [← he1, ← he2, hc0, hc1] at h2
    rcases h2 with h | h | h | h <;> omega
  · exact hs
  · exact hs
  · -- plain on-grid stream from (i2, j2, v2)
    simp only [fUpd]
    rw [if_neg]
    · exact hs
    rintro ⟨he1, he2, he3⟩
    subst he3
    have hx2 : i2 = x - cfg.c 0 w := by omega
    have hy2 : j2 = y - cfg.c 1 w := by omega
    rw [hx2, hy2] at h4
    rw [show x - cfg.c 0 w + cfg.c 0 w = x by ring,
      show y - cfg.c 1 w + cfg.c 1 w = y by ring] at h4
    exact h4 ⟨htyS, htyX⟩

/-- C3: for a source cell (i, j) and direction v whose computed destination
falls outside the level index bounds (and which the earlier source exclusion
rules do not capture): if periodic boundaries are enabled, this is the
coarsest level, and both the source and the wrapped destination are plain
fluid, the population streams to the wrapped index; in every other case the
sweep performs no write to the off-grid destination and instead rewrites the
opposite-direction population at the source cell with its own prior value
(the slot that would have received the missing off-grid stream), which is the
retention the spec describes. -/
theorem streamC3_offgrid (cfg : Config) (g : Grid)
    (hopp : ∀ v2, v2 < cfg.nVels → cfg.vOpp v2 < cfg.nVels ∧
      cfg.vOpp (cfg.vOpp v2) = v2 ∧ cfg.c 0 (cfg.vOpp v2) = -(cfg.c 0 v2) ∧
      cfg.c 1 (cfg.vOpp v2) = -(cfg.c 1 v2))
    (i j : ℤ) (v : ℕ)
    (hi0 : 0 ≤ i) (hiN : i < (g.N : ℤ)) (hj0 : 0 ≤ j) (hjM : j < (g.M : ℤ))
    (hv : v < cfg.nVels)
    (hoff : (g.N : ℤ) ≤ i + cfg.c 0 v ∨ i + cfg.c 0 v < 0 ∨
            (g.M : ℤ) ≤ j + cfg.c 1 v ∨ j + cfg.c 1 v < 0)
    (hty2 : g.LatTyp i j ≠ 2)
    (hty7 : ¬(cfg.inletDoNothing = true ∧ g.LatTyp i j = 7)) :
    ((cfg.periodic = true ∧ g.level = 0 ∧ g.LatTyp i j = 1 ∧
        g.LatTyp ((i + cfg.c 0 v + g.N) % (g.N : ℤ))
          ((j + cfg.c 1 v + g.M) % (g.M : ℤ)) = 1) →
      (LBM_stream cfg g).f ((i + cfg.c 0 v + g.N) % (g.N : ℤ))
        ((j + cfg.c 1 v + g.M) % (g.M : ℤ)) v = g.f i j v)
    ∧ (¬(cfg.periodic = true ∧ g.level = 0 ∧ g.LatTyp i j = 1 ∧
        g.LatTyp ((i + cfg.c 0 v + g.N) % (g.N : ℤ))
          ((j + cfg.c 1 v + g.M) % (g.M : ℤ)) = 1) →
      (LBM_stream cfg g).f i j (cfg.vOpp v) = g.f i j (cfg.vOpp v)) := by
  constructor
  · intro hper
    refine stream_slot_target cfg g _ _ v (g.f i j v) i j v hi0 hiN hj0 hjM hv hty2
      ?_ ?_
    · intro s
      rw [streamStep, if_neg hty7, if_pos hoff, if_pos hper]
      exact fUpd_self s _ _ v (g.f i j v)
    · intro i2 j2 v2 hi20 hi2N hj20 hj2M hv2 hne s hs
      exact streamC3a_pres cfg g hopp i j v hi0 hiN hj0 hjM hv hoff hper.1 hper.2.1
        hper.2.2.1 hper.2.2.2 i2 j2 v2 hi20 hi2N hj20 hj2M hv2 hne s hs
  · intro hnp
    refine stream_slot_target cfg g i j (cfg.vOpp v) (g.f i j (cfg.vOpp v)) i j v
      hi0 hiN hj0 hjM hv hty2 ?_ ?_
    · intro s
      rw [streamStep, if_neg hty7, if_pos hoff, if_neg hnp]
      exact fUpd_self s i j (cfg.vOpp v) (g.f i j (cfg.vOpp v))
    · intro i2 j2 v2 hi20 hi2N hj20 hj2M hv2 hne s hs
      exact streamC3b_pres cfg g hopp i j v hi0 hiN hj0 hjM hv hoff hty7 hnp
        i2 j2 v2 hi20 hi2N hj20 hj2M hv2 hne s hs

/-- Witness for streamC3_offgrid: on the 2 x 1 all-fluid periodic level-0
grid, the population leaving site (1, 0) in the +x direction wraps to site
(0, 0). -/
theorem streamC3_offgrid_witness : (LBM_stream cfgW gW).f 0 0 0 = gW.f 1 0 0 := by
  have h := (streamC3_offgrid cfgW gW (by decide) 1 0 0 (by decide) (by decide)
    (by decide) (by decide) (by decide) (by decide) (by decide) (by decide)).1
    (by decide)
  simpa using h

/-- C10: the destination slot of a skipped transition-to-coarser to
transition-to-coarser transfer is written by no rule of the streaming sweep,
so after the sweep it holds exactly the 0 the fresh buffer was initialised
with; this 0 is precisely the sentinel the coalesce test f = 0 detects. -/
theorem streamC10_sentinel (cfg : Config) (g : Grid)
    (hopp : ∀ v2, v2 < cfg.nVels → cfg.vOpp v2 < cfg.nVels ∧
      cfg.vOpp (cfg.vOpp v2) = v2 ∧ cfg.c 0 (cfg.vOpp v2) = -(cfg.c 0 v2) ∧
      cfg.c 1 (cfg.vOpp v2) = -(cfg.c 1 v2))
    (x y : ℤ) (w : ℕ)
    (hx0 : 0 ≤ x) (hxN : x < (g.N : ℤ)) (hy0 : 0 ≤ y) (hyM : y < (g.M : ℤ))
    (hw : w < cfg.nVels)
    (hs0 : 0 ≤ x - cfg.c 0 w) (hsN : x - cfg.c 0 w < (g.N : ℤ))
    (ht0 : 0 ≤ y - cfg.c 1 w) (htM : y - cfg.c 1 w < (g.M : ℤ))
    (htyS : g.LatTyp (x - cfg.c 0 w) (y - cfg.c 1 w) = 4)
    (htyX : g.LatTyp x y = 4) :
    (LBM_stream cfg g).f x y w = 0 := by
  refine stream_slot_zero cfg g x y w ?_
  intro i2 j2 v2 hi20 hi2N hj20 hj2M hv2 s hs
  exact streamC10_pres cfg g hopp x y w hx0 hxN hy0 hyM hw hs0 hsN ht0 htM htyS htyX
    i2 j2 v2 hi20 hi2N hj20 hj2M hv2 s hs

/-- Witness for streamC10_sentinel: on the 2 x 1 transition-layer pair grid,
the +x population of the type-4 site (1, 0), whose source (0, 0) is also type
4, ends the sweep at the 0 sentinel even though every pre-stream population
was 3. -/
theorem streamC10_sentinel_witness : (LBM_stream cfgW gTL).f 1 0 0 = 0 := by
  exact streamC10_sentinel cfgW gTL (by decide) 1 0 0 (by decide) (by decide)
    (by decide) (by decide) (by decide) (by decide) (by decide) (by decide)
    (by decide) (by decide) (by decide)

/-- Collision iterations write only their own slot of the pair of buffers. -/
theorem collideStep_ne (cfg : Config) (g : Grid) (i2 j2 i j : ℤ) (v2 v : ℕ)
    (hne : ¬(i = i2 ∧ j = j2 ∧ v = v2)) (s : FField × FField) :
    (collideStep cfg g s i2 j2 v2).1 i j v = s.1 i j v ∧
    (collideStep cfg g s i2 j2 v2).2 i j v = s.2 i j v := by
  unfold collideStep
  constructor <;> (simp only [fUpd]; rw [if_neg hne])

/-- Value of the collided pair of buffers at the own slot of an iteration. -/
theorem collideStep_self (cfg : Config) (g : Grid) (i j : ℤ) (v : ℕ)
    (s : FField × FField) :
    (collideStep cfg g s i j v).1 i j v
      = -g.omega * (g.f i j v - LBM_collide_feq cfg g i j v) + g.f i j v
        + g.force_i i j v ∧
    (collideStep cfg g s i j v).2 i j v = LBM_collide_feq cfg g i j v := by
  unfold collideStep
  exact ⟨fUpd_self _ _ _ _ _, fUpd_self _ _ _ _ _⟩

/-- Value of both collision buffers at an active in-bounds cell. -/
theorem collide_slot_pair (cfg : Config) (g : Grid) (i j : ℤ) (v : ℕ) (t1 t2 : ℚ)
    (hi0 : 0 ≤ i) (hiN : i < (g.N : ℤ)) (hj0 : 0 ≤ j) (hjM : j < (g.M : ℤ))
    (hv : v < cfg.nVels) (hty : ¬(g.LatTyp i j = 2 ∨ g.LatTyp i j = 3))
    (ht1 : t1 = -g.omega * (g.f i j v - LBM_collide_feq cfg g i j v) + g.f i j v
      + g.force_i i j v)
    (ht2 : t2 = LBM_collide_feq cfg g i j v) :
    (LBM_collide cfg g).f i j v = t1 ∧ (LBM_collide cfg g).feq i j v = t2 := by
  have hmain : (((intsBelow g.N).foldl
      (fun s i => (intsBelow g.M).foldl (fun s2 j => collideSite cfg g s2 i j) s)
      (g.f, g.feq)).1 i j v = t1) ∧
      (((intsBelow g.N).foldl
      (fun s i => (intsBelow g.M).foldl (fun s2 j => collideSite cfg g s2 i j) s)
      (g.f, g.feq)).2 i j v = t2) := by
    refine foldl_phase _ (fun _ => True)
      (fun s : FField × FField => s.1 i j v = t1 ∧ s.2 i j v = t2) i
      (intsBelow g.N) _ (nodup_intsBelow _) (mem_intsBelow.mpr ⟨hi0, hiN⟩)
      (fun _ _ _ _ _ => trivial) ?_ ?_ trivial
    · intro s _
      refine foldl_phase _ (fun _ => True)
        (fun s2 : FField × FField => s2.1 i j v = t1 ∧ s2.2 i j v = t2) j
        (intsBelow g.M) s (nodup_intsBelow _) (mem_intsBelow.mpr ⟨hj0, hjM⟩)
        (fun _ _ _ _ _ => trivial) ?_ ?_ trivial
      · intro s2 _
        show ((collideSite cfg g s2 i j).1 i j v = t1) ∧
          ((collideSite cfg g s2 i j).2 i j v = t2)
        rw [collideSite, if_neg hty]
        refine foldl_phase _ (fun _ => True)
          (fun s3 : FField × FField => s3.1 i j v = t1 ∧ s3.2 i j v = t2) v
          (List.range cfg.nVels) s2 (List.nodup_range _) (List.mem_range.mpr hv)
          (fun _ _ _ _ _ => trivial) ?_ ?_ trivial
        · intro s3 _
          have h6 := collideStep_self cfg g i j v s3
          exact ⟨ht1 ▸ h6.1, ht2 ▸ h6.2⟩
        · intro s3 v2 _ hvne hq
          have h6 := collideStep_ne cfg g i j i j v2 v
            (fun hc => hvne (hc.2.2.symm)) s3
          exact ⟨h6.1 ▸ hq.1, h6.2 ▸ hq.2⟩
      · intro s2 j2 _ hjne hq
        show ((collideSite cfg g s2 i j2).1 i j v = t1) ∧
          ((collideSite cfg g s2 i j2).2 i j v = t2)
        rw [collideSite]
        split
        · exact hq
        · refine foldl_pres _
            (fun s3 : FField × FField => s3.1 i j v = t1 ∧ s3.2 i j v = t2)
            (List.range cfg.nVels) s2 ?_ hq
          intro s3 v2 _ hq2
          have h6 := collideStep_ne cfg g i j2 i j v2 v
            (fun hc => hjne (hc.2.1.symm)) s3
          exact ⟨h6.1 ▸ hq2.1, h6.2 ▸ hq2.2⟩
    · intro s i2 _ hine hq
      refine foldl_pres _
        (fun s2 : FField × FField => s2.1 i j v = t1 ∧ s2.2 i j v = t2)
        (intsBelow g.M) s ?_ hq
      intro s2 j2 _ hq2
      show ((collideSite cfg g s2 i2 j2).1 i j v = t1) ∧
        ((collideSite cfg g s2 i2 j2).2 i j v = t2)
      rw [collideSite]
      split
      · exact hq2
      · refine foldl_pres _
          (fun s3 : FField × FField => s3.1 i j v = t1 ∧ s3.2 i j v = t2)
          (List.range cfg.nVels) s2 ?_ hq2
        intro s3 v2 _ hq3
        have h6 := collideStep_ne cfg g i2 j2 i j v2 v
          (fun hc => hine (hc.1.symm)) s3
        exact ⟨h6.1 ▸ hq3.1, h6.2 ▸ hq3.2⟩
  exact hmain

/-- Skipped and untouched slots of the collision sweep keep their initial
values from the f and feq buffers. -/
theorem collide_slot_skip (cfg : Config) (g : Grid) (i j : ℤ) (v : ℕ)
    (hty : g.LatTyp i j = 2 ∨ g.LatTyp i j = 3) :
    (LBM_collide cfg g).f i j v = g.f i j v ∧
    (LBM_collide cfg g).feq i j v = g.feq i j v := by
  have hmain : (((intsBelow g.N).foldl
      (fun s i => (intsBelow g.M).foldl (fun s2 j => collideSite cfg g s2 i j) s)
      (g.f, g.feq)).1 i j v = g.f i j v) ∧
      (((intsBelow g.N).foldl
      (fun s i => (intsBelow g.M).foldl (fun s2 j => collideSite cfg g s2 i j) s)
      (g.f, g.feq)).2 i j v = g.feq i j v) := by
    refine foldl_pres _
      (fun s : FField × FField => s.1 i j v = g.f i j v ∧ s.2 i j v = g.feq i j v)
      (intsBelow g.N) _ ?_ ⟨rfl, rfl⟩
    intro s i2 _ hq
    refine foldl_pres _
      (fun s2 : FField × FField => s2.1 i j v = g.f i j v ∧ s2.2 i j v = g.feq i j v)
      (intsBelow g.M) s ?_ hq
    intro s2 j2 _ hq2
    show ((collideSite cfg g s2 i2 j2).1 i j v = g.f i j v) ∧
      ((collideSite cfg g s2 i2 j2).2 i j v = g.feq i j v)
    rw [collideSite]
    split
    · exact hq2
    · rename_i hskip
      refine foldl_pres _
        (fun s3 : FField × FField => s3.1 i j v = g.f i j v ∧ s3.2 i j v = g.feq i j v)
        (List.range cfg.nVels) s2 ?_ hq2
      intro s3 v2 _ hq3
      have hne : ¬(i = i2 ∧ j = j2 ∧ v = v2) := by
        rintro ⟨rfl, rfl, rfl⟩
        exact hskip hty
      have h6 := collideStep_ne cfg g i2 j2 i j v2 v hne s3
      exact ⟨h6.1 ▸ hq3.1, h6.2 ▸ hq3.2⟩
  exact hmain

/-- C5: at every in-bounds cell whose tag is neither 2 (covered by finer) nor
3 (transition receiving from finer), the BGK sweep writes
f_new = f - omega (f - feq) + force_i with feq the freshly recomputed
equilibrium from the local rho and u; cells tagged 2 or 3 keep their
populations unchanged by the sweep. -/
theorem collideC5_bgk (cfg : Config) (g : Grid) (i j : ℤ) (v : ℕ)
    (hi0 : 0 ≤ i) (hiN : i < (g.N : ℤ)) (hj0 : 0 ≤ j) (hjM : j < (g.M : ℤ))
    (hv : v < cfg.nVels) :
    (¬(g.LatTyp i j = 2 ∨ g.LatTyp i j = 3) →
      (LBM_collide cfg g).f i j v
        = g.f i j v - g.omega * (g.f i j v - LBM_collide_feq cfg g i j v)
          + g.force_i i j v)
    ∧ ((g.LatTyp i j = 2 ∨ g.LatTyp i j = 3) →
      (LBM_collide cfg g).f i j v = g.f i j v) := by
  constructor
  · intro hty
    have h6 := (collide_slot_pair cfg g i j v _ _ hi0 hiN hj0 hjM hv hty rfl rfl).1
    rw [h6]; ring
  · intro hty
    exact (collide_slot_skip cfg g i j v hty).1

/-- Witness for collideC5_bgk at the fluid cell (0, 0) of the concrete grid,
in both directions of the two-velocity set. -/
theorem collideC5_bgk_witness :
    (LBM_collide cfgW gW).f 0 0 0
      = gW.f 0 0 0 - gW.omega * (gW.f 0 0 0 - LBM_collide_feq cfgW gW 0 0 0)
        + gW.force_i 0 0 0 :=
  (collideC5_bgk cfgW gW 0 0 0 (by decide) (by decide) (by decide) (by decide)
    (by decide)).1 (by decide)

/-- C6: the per-cell, per-direction equilibrium of the source equals the
spec-form feq = rho * w_v * (1 + A/cs^2 + B/(2 cs^4)) with A the velocity dot
product and B the quadratic double sum; in particular for positive density
and zero velocity it returns exactly rho * w_v. -/
theorem feqC6_equilibrium (cfg : Config) (g : Grid) (i j : ℤ) (v : ℕ) :
    LBM_collide_feq cfg g i j v = feqSpec cfg g i j v
    ∧ (0 < g.rho i j → g.u i j 0 = 0 → g.u i j 1 = 0 →
      LBM_collide_feq cfg g i j v = g.rho i j * cfg.w v) := by
  constructor
  · unfold LBM_collide_feq feqSpec
    simp only [Finset.sum_range_succ, Finset.sum_range_zero, reduceIte]
    rcases eq_or_ne cfg.cs 0 with h | h
    · rw [h]
      norm_num
    · field_simp
      ring_nf
      tauto
  · intro _ h0 h1
    unfold LBM_collide_feq
    rw [h0, h1]
    simp

/-- Witness for feqC6_equilibrium: the resting cell (0, 0) of the concrete
grid has unit density and zero velocity, so feq reduces to rho times the
weight. -/
theorem feqC6_equilibrium_witness :
    LBM_collide_feq cfgW gW 0 0 0 = gW.rho 0 0 * cfgW.w 0 :=
  (feqC6_equilibrium cfgW gW 0 0 0).2 (by norm_num [gW]) rfl rfl

/-- C9 (amended): the collision sweep touches only the population buffer f
and the equilibrium buffer feq; density, velocity, both force fields, the
three time-average fields, the site tags, the sizes and the counters are
returned unchanged. -/
theorem collideC9_frame (cfg : Config) (g : Grid) :
    (LBM_collide cfg g).rho = g.rho ∧ (LBM_collide cfg g).u = g.u ∧
    (LBM_collide cfg g).force_i = g.force_i ∧
    (LBM_collide cfg g).force_xyz = g.force_xyz ∧
    (LBM_collide cfg g).rho_timeav = g.rho_timeav ∧
    (LBM_collide cfg g).ui_timeav = g.ui_timeav ∧
    (LBM_collide cfg g).uiuj_timeav = g.uiuj_timeav ∧
    (LBM_collide cfg g).LatTyp = g.LatTyp ∧ (LBM_collide cfg g).N = g.N ∧
    (LBM_collide cfg g).M = g.M ∧ (LBM_collide cfg g).level = g.level ∧
    (LBM_collide cfg g).t = g.t ∧ (LBM_collide cfg g).omega = g.omega :=
  ⟨rfl, rfl, rfl, rfl, rfl, rfl, rfl, rfl, rfl, rfl, rfl, rfl, rfl⟩

/-- Counterexample to C9 as stated: the collision sweep does modify a stored
field other than the new-generation population buffer, namely the feq member
buffer, which changes at the fluid cell (0, 0) of the concrete grid. -/
theorem collideC9_feq_changes :
    (LBM_collide cfgW gW).feq 0 0 0 ≠ gW.feq 0 0 0 := by
  have h1 : (LBM_collide cfgW gW).feq 0 0 0 = 1 / 2 := by
    norm_num [LBM_collide, collideSite, collideStep, LBM_collide_feq, intsBelow,
      List.range_succ, fUpd, gW, cfgW]
  rw [h1]
  norm_num [gW]

/-- A macroscopic site step touches no slot of another site. -/
theorem macroStep_ne (cfg : Config) (g : Grid) (i2 j2 i j : ℤ)
    (hne : ¬(i = i2 ∧ j = j2)) (s : MacroState) :
    (macroSiteStep cfg g s i2 j2).rho i j = s.rho i j ∧
    (∀ d, (macroSiteStep cfg g s i2 j2).u i j d = s.u i j d) ∧
    (macroSiteStep cfg g s i2 j2).rta i j = s.rta i j ∧
    (∀ d, (macroSiteStep cfg g s i2 j2).uta i j d = s.uta i j d) ∧
    (∀ d, (macroSiteStep cfg g s i2 j2).uuta i j d = s.uuta i j d) := by
  unfold macroSiteStep
  refine ⟨?_, fun d => ?_, ?_, fun d => ?_, fun d => ?_⟩
  · simp only [sUpd]
    rw [if_neg (fun hc => hne ⟨hc.1, hc.2⟩)]
  · simp only [fUpd]
    rw [if_neg (fun hc => hne ⟨hc.1, hc.2.1⟩), if_neg (fun hc => hne ⟨hc.1, hc.2.1⟩)]
  · simp only [sUpd]
    rw [if_neg (fun hc => hne ⟨hc.1, hc.2⟩)]
  · simp only [fUpd]
    rw [if_neg (fun hc => hne ⟨hc.1, hc.2.1⟩), if_neg (fun hc => hne ⟨hc.1, hc.2.1⟩)]
  · simp only [fUpd]
    rw [if_neg (fun hc => hne ⟨hc.1, hc.2.1⟩), if_neg (fun hc => hne ⟨hc.1, hc.2.1⟩),
      if_neg (fun hc => hne ⟨hc.1, hc.2.1⟩)]

/-- Values written by the macroscopic step at its own site, in terms of the
state the step received. -/
theorem macroStep_self (cfg : Config) (g : Grid) (i j : ℤ) (s : MacroState) :
    (macroSiteStep cfg g s i j).rho i j = macroRho cfg g i j ∧
    (macroSiteStep cfg g s i j).u i j 0 = macroVel cfg g i j 0 ∧
    (macroSiteStep cfg g s i j).u i j 1 = macroVel cfg g i j 1 ∧
    (macroSiteStep cfg g s i j).rta i j
      = taUpdate g.t (s.rta i j) (macroRho cfg g i j) ∧
    (macroSiteStep cfg g s i j).uta i j 0
      = taUpdate g.t (s.uta i j 0) (macroVel cfg g i j 0) ∧
    (macroSiteStep cfg g s i j).uta i j 1
      = taUpdate g.t (s.uta i j 1) (macroVel cfg g i j 1) ∧
    (macroSiteStep cfg g s i j).uuta i j 0
      = taUpdate g.t (s.uuta i j 0) (macroVel cfg g i j 0 * macroVel cfg g i j 0) ∧
    (macroSiteStep cfg g s i j).uuta i j 1
      = taUpdate g.t (s.uuta i j 1) (macroVel cfg g i j 0 * macroVel cfg g i j 1) ∧
    (macroSiteStep cfg g s i j).uuta i j 2
      = taUpdate g.t (s.uuta i j 2) (macroVel cfg g i j 1 * macroVel cfg g i j 1) := by
  unfold macroSiteStep
  simp [fUpd, sUpd]


/-- Per-site characterisation of the full macroscopic sweep at an in-bounds
cell: density and velocity from the recovery if-chain, and every time
average folded with the incremental-mean update against the fresh values. -/
theorem macro_at (cfg : Config) (g : Grid) (i j : ℤ)
    (hi0 : 0 ≤ i) (hiN : i < (g.N : ℤ)) (hj0 : 0 ≤ j) (hjM : j < (g.M : ℤ)) :
    (LBM_macro_sweep cfg g).rho i j = macroRho cfg g i j ∧
    (LBM_macro_sweep cfg g).u i j 0 = macroVel cfg g i j 0 ∧
    (LBM_macro_sweep cfg g).u i j 1 = macroVel cfg g i j 1 ∧
    (LBM_macro_sweep cfg g).rho_timeav i j
      = taUpdate g.t (g.rho_timeav i j) (macroRho cfg g i j) ∧
    (LBM_macro_sweep cfg g).ui_timeav i j 0
      = taUpdate g.t (g.ui_timeav i j 0) (macroVel cfg g i j 0) ∧
    (LBM_macro_sweep cfg g).ui_timeav i j 1
      = taUpdate g.t (g.ui_timeav i j 1) (macroVel cfg g i j 1) ∧
    (LBM_macro_sweep cfg g).uiuj_timeav i j 0
      = taUpdate g.t (g.uiuj_timeav i j 0)
          (macroVel cfg g i j 0 * macroVel cfg g i j 0) ∧
    (LBM_macro_sweep cfg g).uiuj_timeav i j 1
      = taUpdate g.t (g.uiuj_timeav i j 1)
          (macroVel cfg g i j 0 * macroVel cfg g i j 1) ∧
    (LBM_macro_sweep cfg g).uiuj_timeav i j 2
      = taUpdate g.t (g.uiuj_timeav i j 2)
          (macroVel cfg g i j 1 * macroVel cfg g i j 1) := by
  have hmain := foldl_phase
    (fun s i2 => (intsBelow g.M).foldl (fun s2 j2 => macroSiteStep cfg g s2 i2 j2) s)
    (fun s : MacroState => s.rta i j = g.rho_timeav i j ∧
      s.uta i j 0 = g.ui_timeav i j 0 ∧ s.uta i j 1 = g.ui_timeav i j 1 ∧
      s.uuta i j 0 = g.uiuj_timeav i j 0 ∧ s.uuta i j 1 = g.uiuj_timeav i j 1 ∧
      s.uuta i j 2 = g.uiuj_timeav i j 2)
    (fun s : MacroState => s.rho i j = macroRho cfg g i j ∧
      s.u i j 0 = macroVel cfg g i j 0 ∧ s.u i j 1 = macroVel cfg g i j 1 ∧
      s.rta i j = taUpdate g.t (g.rho_timeav i j) (macroRho cfg g i j) ∧
      s.uta i j 0 = taUpdate g.t (g.ui_timeav i j 0) (macroVel cfg g i j 0) ∧
      s.uta i j 1 = taUpdate g.t (g.ui_timeav i j 1) (macroVel cfg g i j 1) ∧
      s.uuta i j 0 = taUpdate g.t (g.uiuj_timeav i j 0)
        (macroVel cfg g i j 0 * macroVel cfg g i j 0) ∧
      s.uuta i j 1 = taUpdate g.t (g.uiuj_timeav i j 1)
        (macroVel cfg g i j 0 * macroVel cfg g i j 1) ∧
      s.uuta i j 2 = taUpdate g.t (g.uiuj_timeav i j 2)
        (macroVel cfg g i j 1 * macroVel cfg g i j 1))
    i (intsBelow g.N) ⟨g.rho, g.u, g.rho_timeav, g.ui_timeav, g.uiuj_timeav⟩
    (nodup_intsBelow _) (mem_intsBelow.mpr ⟨hi0, hiN⟩)
    ?_ ?_ ?_ ⟨rfl, rfl, rfl, rfl, rfl, rfl⟩
  · exact hmain
  · -- columns before the distinguished one preserve the initial averages
    intro s i2 _ hine hp
    refine foldl_pres _
      (fun s : MacroState => s.rta i j = g.rho_timeav i j ∧
      s.uta i j 0 = g.ui_timeav i j 0 ∧ s.uta i j 1 = g.ui_timeav i j 1 ∧
      s.uuta i j 0 = g.uiuj_timeav i j 0 ∧ s.uuta i j 1 = g.uiuj_timeav i j 1 ∧
      s.uuta i j 2 = g.uiuj_timeav i j 2)
      (intsBelow g.M) s ?_ hp
    intro s2 j2 _ hp2
    have h6 := macroStep_ne cfg g i2 j2 i j (fun hc => hine hc.1.symm) s2
    exact ⟨h6.2.2.1 ▸ hp2.1, h6.2.2.2.1 0 ▸ hp2.2.1, h6.2.2.2.1 1 ▸ hp2.2.2.1,
      h6.2.2.2.2 0 ▸ hp2.2.2.2.1, h6.2.2.2.2 1 ▸ hp2.2.2.2.2.1,
      h6.2.2.2.2 2 ▸ hp2.2.2.2.2.2⟩
  · -- the distinguished column establishes the final values
    intro s hp
    refine foldl_phase _
      (fun s : MacroState => s.rta i j = g.rho_timeav i j ∧
      s.uta i j 0 = g.ui_timeav i j 0 ∧ s.uta i j 1 = g.ui_timeav i j 1 ∧
      s.uuta i j 0 = g.uiuj_timeav i j 0 ∧ s.uuta i j 1 = g.uiuj_timeav i j 1 ∧
      s.uuta i j 2 = g.uiuj_timeav i j 2)
      (fun s : MacroState => s.rho i j = macroRho cfg g i j ∧
      s.u i j 0 = macroVel cfg g i j 0 ∧ s.u i j 1 = macroVel cfg g i j 1 ∧
      s.rta i j = taUpdate g.t (g.rho_timeav i j) (macroRho cfg g i j) ∧
      s.uta i j 0 = taUpdate g.t (g.ui_timeav i j 0) (macroVel cfg g i j 0) ∧
      s.uta i j 1 = taUpdate g.t (g.ui_timeav i j 1) (macroVel cfg g i j 1) ∧
      s.uuta i j 0 = taUpdate g.t (g.uiuj_timeav i j 0)
        (macroVel cfg g i j 0 * macroVel cfg g i j 0) ∧
      s.uuta i j 1 = taUpdate g.t (g.uiuj_timeav i j 1)
        (macroVel cfg g i j 0 * macroVel cfg g i j 1) ∧
      s.uuta i j 2 = taUpdate g.t (g.uiuj_timeav i j 2)
        (macroVel cfg g i j 1 * macroVel cfg g i j 1))
      j (intsBelow g.M) s (nodup_intsBelow _) (mem_intsBelow.mpr ⟨hj0, hjM⟩)
      ?_ ?_ ?_ hp
    · intro s2 j2 _ hjne hp2
      have h6 := macroStep_ne cfg g i j2 i j (fun hc => hjne hc.2.symm) s2
      exact ⟨h6.2.2.1 ▸ hp2.1, h6.2.2.2.1 0 ▸ hp2.2.1, h6.2.2.2.1 1 ▸ hp2.2.2.1,
        h6.2.2.2.2 0 ▸ hp2.2.2.2.1, h6.2.2.2.2 1 ▸ hp2.2.2.2.2.1,
        h6.2.2.2.2 2 ▸ hp2.2.2.2.2.2⟩
    · intro s2 hp2
      have h6 := macroStep_self cfg g i j s2
      rw [hp2.1, hp2.2.1, hp2.2.2.1, hp2.2.2.2.1, hp2.2.2.2.2.1,
        hp2.2.2.2.2.2] at h6
      exact h6
    · intro s2 j2 _ hjne hq2
      have h6 := macroStep_ne cfg g i j2 i j (fun hc => hjne hc.2.symm) s2
      exact ⟨h6.1 ▸ hq2.1, h6.2.1 0 ▸ hq2.2.1, h6.2.1 1 ▸ hq2.2.2.1,
        h6.2.2.1 ▸ hq2.2.2.2.1, h6.2.2.2.1 0 ▸ hq2.2.2.2.2.1,
        h6.2.2.2.1 1 ▸ hq2.2.2.2.2.2.1, h6.2.2.2.2 0 ▸ hq2.2.2.2.2.2.2.1,
        h6.2.2.2.2 1 ▸ hq2.2.2.2.2.2.2.2.1, h6.2.2.2.2 2 ▸ hq2.2.2.2.2.2.2.2.2⟩
  · -- columns after the distinguished one preserve the final values
    intro s i2 _ hine hq
    refine foldl_pres _
      (fun s : MacroState => s.rho i j = macroRho cfg g i j ∧
      s.u i j 0 = macroVel cfg g i j 0 ∧ s.u i j 1 = macroVel cfg g i j 1 ∧
      s.rta i j = taUpdate g.t (g.rho_timeav i j) (macroRho cfg g i j) ∧
      s.uta i j 0 = taUpdate g.t (g.ui_timeav i j 0) (macroVel cfg g i j 0) ∧
      s.uta i j 1 = taUpdate g.t (g.ui_timeav i j 1) (macroVel cfg g i j 1) ∧
      s.uuta i j 0 = taUpdate g.t (g.uiuj_timeav i j 0)
        (macroVel cfg g i j 0 * macroVel cfg g i j 0) ∧
      s.uuta i j 1 = taUpdate g.t (g.uiuj_timeav i j 1)
        (macroVel cfg g i j 0 * macroVel cfg g i j 1) ∧
      s.uuta i j 2 = taUpdate g.t (g.uiuj_timeav i j 2)
        (macroVel cfg g i j 1 * macroVel cfg g i j 1))
      (intsBelow g.M) s ?_ hq
    intro s2 j2 _ hq2
    have h6 := macroStep_ne cfg g i2 j2 i j (fun hc => hine hc.1.symm) s2
    exact ⟨h6.1 ▸ hq2.1, h6.2.1 0 ▸ hq2.2.1, h6.2.1 1 ▸ hq2.2.2.1,
      h6.2.2.1 ▸ hq2.2.2.2.1, h6.2.2.2.1 0 ▸ hq2.2.2.2.2.1,
      h6.2.2.2.1 1 ▸ hq2.2.2.2.2.2.1, h6.2.2.2.2 0 ▸ hq2.2.2.2.2.2.2.1,
      h6.2.2.2.2 1 ▸ hq2.2.2.2.2.2.2.2.1, h6.2.2.2.2 2 ▸ hq2.2.2.2.2.2.2.2.2⟩

/-- C7: a cell tagged 0 (solid) or 5 (solid variant) recovers rho = 1 and
u = 0 regardless of its populations, in the full-grid sweep and in the
single-site entry point alike. -/
theorem macroC7_solid (cfg : Config) (g : Grid) (i j : ℤ)
    (hi0 : 0 ≤ i) (hiN : i < (g.N : ℤ)) (hj0 : 0 ≤ j) (hjM : j < (g.M : ℤ))
    (hty : g.LatTyp i j = 0 ∨ g.LatTyp i j = 5) :
    ((LBM_macro_sweep cfg g).rho i j = 1 ∧ (LBM_macro_sweep cfg g).u i j 0 = 0 ∧
      (LBM_macro_sweep cfg g).u i j 1 = 0) ∧
    ((LBM_macro_site cfg g i j).rho i j = 1 ∧
      (LBM_macro_site cfg g i j).u i j 0 = 0 ∧
      (LBM_macro_site cfg g i j).u i j 1 = 0) := by
  have hr : macroRho cfg g i j = 1 := by
    rcases hty with h | h <;> simp [macroRho, h]
  have hv0 : macroVel cfg g i j 0 = 0 := by
    rcases hty with h | h <;> simp [macroVel, h]
  have hv1 : macroVel cfg g i j 1 = 0 := by
    rcases hty with h | h <;> simp [macroVel, h]
  have hm := macro_at cfg g i j hi0 hiN hj0 hjM
  refine ⟨⟨hm.1.trans hr, hm.2.1.trans hv0, hm.2.2.1.trans hv1⟩, ?_, ?_, ?_⟩
  · show sUpd g.rho i j (macroRho cfg g i j) i j = 1
    rw [sUpd_self, hr]
  · show fUpd (fUpd g.u i j 0 (macroVel cfg g i j 0)) i j 1 (macroVel cfg g i j 1)
      i j 0 = 0
    rw [fUpd_ne _ _ _ _ _ (by simp), fUpd_self, hv0]
  · show fUpd (fUpd g.u i j 0 (macroVel cfg g i j 0)) i j 1 (macroVel cfg g i j 1)
      i j 1 = 0
    rw [fUpd_self, hv1]

/-- Witness for macroC7_solid at the all-solid 1 x 1 grid whose populations
and macroscopic fields hold junk values. -/
theorem macroC7_solid_witness :
    (LBM_macro_sweep cfgW gS).rho 0 0 = 1 ∧ (LBM_macro_site cfgW gS 0 0).u 0 0 0 = 0 :=
  ⟨(macroC7_solid cfgW gS 0 0 (by decide) (by decide) (by decide) (by decide)
      (by decide)).1.1,
   (macroC7_solid cfgW gS 0 0 (by decide) (by decide) (by decide) (by decide)
      (by decide)).2.2.1⟩

/-- Constant input is an exact fixed point of the incremental-mean update. -/
theorem taUpdate_fix (t : ℕ) (x : ℚ) : taUpdate t x x = x := by
  unfold taUpdate
  have h : ((t : ℚ) + 1) ≠ 0 := by positivity
  field_simp
  ring

/-- C8: at every in-bounds cell the sweep updates each running average by
avg2 = (avg * t + new) / (t + 1) against the freshly recovered density,
velocity components and their cross products; and feeding a constant value
through any sequence of such updates leaves it unchanged, exactly over the
rationals. -/
theorem macroC8_timeavg (cfg : Config) (g : Grid) (i j : ℤ)
    (hi0 : 0 ≤ i) (hiN : i < (g.N : ℤ)) (hj0 : 0 ≤ j) (hjM : j < (g.M : ℤ)) :
    ((LBM_macro_sweep cfg g).rho_timeav i j
        = taUpdate g.t (g.rho_timeav i j) ((LBM_macro_sweep cfg g).rho i j) ∧
      (LBM_macro_sweep cfg g).ui_timeav i j 0
        = taUpdate g.t (g.ui_timeav i j 0) ((LBM_macro_sweep cfg g).u i j 0) ∧
      (LBM_macro_sweep cfg g).ui_timeav i j 1
        = taUpdate g.t (g.ui_timeav i j 1) ((LBM_macro_sweep cfg g).u i j 1) ∧
      (LBM_macro_sweep cfg g).uiuj_timeav i j 0
        = taUpdate g.t (g.uiuj_timeav i j 0)
            ((LBM_macro_sweep cfg g).u i j 0 * (LBM_macro_sweep cfg g).u i j 0) ∧
      (LBM_macro_sweep cfg g).uiuj_timeav i j 1
        = taUpdate g.t (g.uiuj_timeav i j 1)
            ((LBM_macro_sweep cfg g).u i j 0 * (LBM_macro_sweep cfg g).u i j 1) ∧
      (LBM_macro_sweep cfg g).uiuj_timeav i j 2
        = taUpdate g.t (g.uiuj_timeav i j 2)
            ((LBM_macro_sweep cfg g).u i j 1 * (LBM_macro_sweep cfg g).u i j 1))
    ∧ (∀ (x : ℚ) (l : List ℕ), l.foldl (fun avg t2 => taUpdate t2 avg x) x = x) := by
  have hm := macro_at cfg g i j hi0 hiN hj0 hjM
  constructor
  · refine ⟨?_, ?_, ?_, ?_, ?_, ?_⟩
    · rw [hm.2.2.2.1, hm.1]
    · rw [hm.2.2.2.2.1, hm.2.1]
    · rw [hm.2.2.2.2.2.1, hm.2.2.1]
    · rw [hm.2.2.2.2.2.2.1, hm.2.1]
    · rw [hm.2.2.2.2.2.2.2.1, hm.2.1, hm.2.2.1]
    · rw [hm.2.2.2.2.2.2.2.2, hm.2.2.1]
  · intro x l
    induction l with
    | nil => rfl
    | cons hd tl ih => rw [List.foldl_cons, taUpdate_fix]; exact ih

/-- Witness for macroC8_timeavg at cell (0, 0) of the concrete fluid grid. -/
theorem macroC8_timeavg_witness :
    (LBM_macro_sweep cfgW gW).rho_timeav 0 0
      = taUpdate gW.t (gW.rho_timeav 0 0) ((LBM_macro_sweep cfgW gW).rho 0 0) :=
  (macroC8_timeavg cfgW gW 0 0 (by decide) (by decide) (by decide) (by decide)).1.1

/-- Reading the quadruple sibling update away from all four written slots is
unchanged. -/
theorem quadUpd_ne (s : FField) (p q : ℤ) (v : ℕ) (cf : ℚ) (X Y : ℤ) (W : ℕ)
    (h : ¬((X = p ∨ X = p + 1) ∧ (Y = q ∨ Y = q + 1) ∧ W = v)) :
    quadUpd s p q v cf X Y W = s X Y W := by
  unfold quadUpd
  rw [fUpd_ne _ _ _ _ _ (fun hc => h ⟨Or.inr hc.1, Or.inr hc.2.1, hc.2.2⟩),
    fUpd_ne _ _ _ _ _ (fun hc => h ⟨Or.inl hc.1, Or.inr hc.2.1, hc.2.2⟩),
    fUpd_ne _ _ _ _ _ (fun hc => h ⟨Or.inr hc.1, Or.inl hc.2.1, hc.2.2⟩),
    fUpd_ne _ _ _ _ _ (fun hc => h ⟨Or.inl hc.1, Or.inl hc.2.1, hc.2.2⟩)]

/-- Reading the quadruple sibling update at any of the four written slots
gives the replicated coarse value. -/
theorem quadUpd_self (s : FField) (p q : ℤ) (v : ℕ) (cf : ℚ) (a b : ℤ)
    (ha : a = 0 ∨ a = 1) (hb : b = 0 ∨ b = 1) :
    quadUpd s p q v cf (p + a) (q + b) v = cf := by
  unfold quadUpd
  rcases ha with rfl | rfl <;> rcases hb with rfl | rfl <;> simp [fUpd]

/-- A slot outside every written sibling block keeps its initial fine value
through the whole explosion loop. -/
theorem explode_slot_keep (cfg : Config) (coarse fine : Grid) (x0 x1 y0 y1 : ℤ)
    (X Y : ℤ) (W : ℕ)
    (h : ∀ i2 j2 : ℤ, x0 ≤ i2 → i2 ≤ x1 → y0 ≤ j2 → j2 ≤ y1 →
      coarse.LatTyp i2 j2 = 4 → fine.LatTyp (2 * (i2 - x0)) (2 * (j2 - y0)) = 3 →
      ¬((X = 2 * (i2 - x0) ∨ X = 2 * (i2 - x0) + 1) ∧
        (Y = 2 * (j2 - y0) ∨ Y = 2 * (j2 - y0) + 1))) :
    (LBM_explode cfg coarse fine x0 x1 y0 y1).f X Y W = fine.f X Y W := by
  show ((intRange x0 x1).foldl
    (fun s i => (intRange y0 y1).foldl
      (fun s2 j => explodeSite cfg coarse fine x0 y0 s2 i j) s)
    fine.f) X Y W = fine.f X Y W
  refine foldl_pres _ (fun s : FField => s X Y W = fine.f X Y W)
    (intRange x0 x1) _ ?_ rfl
  intro s i2 hi2 hs
  refine foldl_pres _ (fun s2 : FField => s2 X Y W = fine.f X Y W)
    (intRange y0 y1) s ?_ hs
  intro s2 j2 hj2 hs2
  show (explodeSite cfg coarse fine x0 y0 s2 i2 j2) X Y W = fine.f X Y W
  rw [explodeSite]
  split
  · rename_i h4
    simp only [getFineIndices]
    split
    · rename_i h3
      refine foldl_pres _ (fun s3 : FField => s3 X Y W = fine.f X Y W)
        (List.range cfg.nVels) s2 ?_ hs2
      intro s3 v2 _ hs3
      rw [quadUpd_ne s3 _ _ v2 _ X Y W ?_]
      · exact hs3
      intro hc
      exact h i2 j2 (mem_intRange.mp hi2).1 (mem_intRange.mp hi2).2
        (mem_intRange.mp hj2).1 (mem_intRange.mp hj2).2 h4 h3 ⟨hc.1, hc.2.1⟩
    · exact hs2
  · exact hs2

/-- Value of the exploded fine field at the four sibling slots of a
qualifying coarse site. -/
theorem explode_slot_write (cfg : Config) (coarse fine : Grid) (x0 x1 y0 y1 : ℤ)
    (i j : ℤ) (v : ℕ) (a b : ℤ)
    (hix : x0 ≤ i) (hix2 : i ≤ x1) (hjy : y0 ≤ j) (hjy2 : j ≤ y1)
    (hv : v < cfg.nVels) (ha : a = 0 ∨ a = 1) (hb : b = 0 ∨ b = 1)
    (hty4 : coarse.LatTyp i j = 4)
    (hty3 : fine.LatTyp (2 * (i - x0)) (2 * (j - y0)) = 3) :
    (LBM_explode cfg coarse fine x0 x1 y0 y1).f (2 * (i - x0) + a)
      (2 * (j - y0) + b) v = coarse.f i j v := by
  show ((intRange x0 x1).foldl
    (fun s i => (intRange y0 y1).foldl
      (fun s2 j => explodeSite cfg coarse fine x0 y0 s2 i j) s)
    fine.f) (2 * (i - x0) + a) (2 * (j - y0) + b) v = coarse.f i j v
  have hpres : ∀ (i2 j2 : ℤ), ¬(i2 = i ∧ j2 = j) → ∀ s2 : FField,
      s2 (2 * (i - x0) + a) (2 * (j - y0) + b) v = coarse.f i j v →
      (explodeSite cfg coarse fine x0 y0 s2 i2 j2) (2 * (i - x0) + a)
        (2 * (j - y0) + b) v = coarse.f i j v := by
    intro i2 j2 hne s2 hs2
    rw [explodeSite]
    split
    · simp only [getFineIndices]
      split
      · refine foldl_pres _ (fun s3 : FField =>
          s3 (2 * (i - x0) + a) (2 * (j - y0) + b) v = coarse.f i j v)
          (List.range cfg.nVels) s2 ?_ hs2
        intro s3 v2 _ hs3
        rw [quadUpd_ne s3 _ _ v2 _ _ _ v ?_]
        · exact hs3
        rintro ⟨hc1, hc2, _⟩
        refine hne ⟨?_, ?_⟩ <;> rcases ha with rfl | rfl <;> rcases hb with rfl | rfl <;>
          rcases hc1 with h9 | h9 <;> rcases hc2 with h8 | h8 <;> omega
      · exact hs2
    · exact hs2
  refine foldl_phase _ (fun _ => True)
    (fun s : FField =>
      s (2 * (i - x0) + a) (2 * (j - y0) + b) v = coarse.f i j v) i
    (intRange x0 x1) _ (nodup_intRange _ _) (mem_intRange.mpr ⟨hix, hix2⟩)
    (fun _ _ _ _ _ => trivial) ?_ ?_ trivial
  · intro s _
    refine foldl_phase _ (fun _ => True)
      (fun s2 : FField =>
        s2 (2 * (i - x0) + a) (2 * (j - y0) + b) v = coarse.f i j v) j
      (intRange y0 y1) s (nodup_intRange _ _) (mem_intRange.mpr ⟨hjy, hjy2⟩)
      (fun _ _ _ _ _ => trivial) ?_ ?_ trivial
    · intro s2 _
      show (explodeSite cfg coarse fine x0 y0 s2 i j) _ _ v = coarse.f i j v
      rw [explodeSite, if_pos hty4]
      simp only [getFineIndices]
      rw [if_pos hty3]
      refine foldl_phase _ (fun _ => True)
        (fun s3 : FField =>
          s3 (2 * (i - x0) + a) (2 * (j - y0) + b) v = coarse.f i j v) v
        (List.range cfg.nVels) s2 (List.nodup_range _) (List.mem_range.mpr hv)
        (fun _ _ _ _ _ => trivial) ?_ ?_ trivial
      · intro s3 _
        exact quadUpd_self s3 _ _ v (coarse.f i j v) a b ha hb
      · intro s3 v2 _ hvne hs3
        rw [quadUpd_ne s3 _ _ v2 _ _ _ v (fun hc => hvne hc.2.2.symm)]
        exact hs3
    · intro s2 j2 _ hjne hs2
      exact hpres i j2 (fun hc => hjne hc.2) s2 hs2
  · intro s i2 _ hine hs
    refine foldl_pres _ (fun s2 : FField =>
      s2 (2 * (i - x0) + a) (2 * (j - y0) + b) v = coarse.f i j v)
      (intRange y0 y1) s ?_ hs
    intro s2 j2 _ hs2
    exact hpres i2 j2 (fun hc => hine hc.1) s2 hs2

/-- C2 (amended): for a parent cell of type 4 (transition to coarser) inside
the region, the explode operation checks only the tag of the base
(lowest-indexed) covered fine sibling: if that tag is 3 (transition receiving
from finer) it copies every population component of the parent unchanged
into all 2^dims = 4 covered siblings, regardless of the tags the individual
siblings carry; if the base tag is not 3 it writes none of the four. -/
theorem explodeC2_replication (cfg : Config) (coarse fine : Grid)
    (x0 x1 y0 y1 i j : ℤ) (v : ℕ) (a b : ℤ)
    (hix : x0 ≤ i) (hix2 : i ≤ x1) (hjy : y0 ≤ j) (hjy2 : j ≤ y1)
    (hv : v < cfg.nVels) (ha : a = 0 ∨ a = 1) (hb : b = 0 ∨ b = 1)
    (hty4 : coarse.LatTyp i j = 4) :
    (fine.LatTyp (2 * (i - x0)) (2 * (j - y0)) = 3 →
      (LBM_explode cfg coarse fine x0 x1 y0 y1).f (2 * (i - x0) + a)
        (2 * (j - y0) + b) v = coarse.f i j v)
    ∧ (fine.LatTyp (2 * (i - x0)) (2 * (j - y0)) ≠ 3 →
      (LBM_explode cfg coarse fine x0 x1 y0 y1).f (2 * (i - x0) + a)
        (2 * (j - y0) + b) v = fine.f (2 * (i - x0) + a) (2 * (j - y0) + b) v) := by
  constructor
  · intro hty3
    exact explode_slot_write cfg coarse fine x0 x1 y0 y1 i j v a b hix hix2 hjy
      hjy2 hv ha hb hty4 hty3
  · intro hn3
    refine explode_slot_keep cfg coarse fine x0 x1 y0 y1 _ _ v ?_
    intro i2 j2 _ _ _ _ _ h3
    rintro ⟨hc1, hc2⟩
    by_cases hij : i2 = i ∧ j2 = j
    · exact hn3 (hij.1 ▸ hij.2 ▸ h3)
    · refine hij ⟨?_, ?_⟩ <;> rcases ha with rfl | rfl <;> rcases hb with rfl | rfl <;>
        rcases hc1 with h9 | h9 <;> rcases hc2 with h8 | h8 <;> omega

/-- Witness for explodeC2_replication: the qualifying coarse site of the
concrete pair of grids replicates its population into the sibling (1, 0)
even though that sibling is plain fluid. -/
theorem explodeC2_replication_witness :
    (LBM_explode cfgE coarseE fineE 0 0 0 0).f 1 0 0 = coarseE.f 0 0 0 := by
  have h := (explodeC2_replication cfgE coarseE fineE 0 0 0 0 0 0 0 1 0
    (by decide) (by decide) (by decide) (by decide) (by decide) (by decide)
    (by decide) (by decide)).1 (by decide)
  simpa using h

/-- Counterexample to C2 as stated: the fine sibling (1, 0) does not carry
the receiving tag 3, held value 7 before the explosion, and was overwritten
with the coarse value 5 anyway, because the source checks only the tag of
the base sibling (0, 0). -/
theorem explodeC2_counterexample :
    fineE.LatTyp 1 0 ≠ 3 ∧ fineE.f 1 0 0 = 7 ∧
    (LBM_explode cfgE coarseE fineE 0 0 0 0).f 1 0 0 = 5 := by decide

/-- C4: at a coarse region cell of type 4 or 5, each population component
that still holds the 0 sentinel is overwritten with the arithmetic mean of
the component over the 4 covered fine siblings, and each nonzero component
is left exactly as the coarse stream computed it. -/
theorem coalesceC4_mean (cfg : Config) (coarse fine : Grid)
    (x0 x1 y0 y1 i j : ℤ) (v : ℕ)
    (hix : x0 ≤ i) (hix2 : i ≤ x1) (hjy : y0 ≤ j) (hjy2 : j ≤ y1)
    (hv : v < cfg.nVels)
    (hty : coarse.LatTyp i j = 4 ∨ coarse.LatTyp i j = 5) :
    (LBM_coalesce cfg coarse fine x0 x1 y0 y1).f i j v
      = if coarse.f i j v = 0 then
          (fine.f (2 * (i - x0)) (2 * (j - y0)) v +
           fine.f (2 * (i - x0) + 1) (2 * (j - y0)) v +
           fine.f (2 * (i - x0)) (2 * (j - y0) + 1) v +
           fine.f (2 * (i - x0) + 1) (2 * (j - y0) + 1) v) / (2 : ℚ) ^ 2
        else coarse.f i j v := by
  show ((intRange x0 x1).foldl
    (fun s i => (intRange y0 y1).foldl
      (fun s2 j => coalesceSite cfg coarse fine x0 y0 s2 i j) s)
    coarse.f) i j v = _
  have hpresP : ∀ (i2 j2 : ℤ), ¬(i2 = i ∧ j2 = j) → ∀ s2 : FField,
      ∀ t : ℚ, s2 i j v = t →
      (coalesceSite cfg coarse fine x0 y0 s2 i2 j2) i j v = t := by
    intro i2 j2 hne s2 t hs2
    rw [coalesceSite]
    split
    · simp only [getFineIndices]
      refine foldl_pres _ (fun s3 : FField => s3 i j v = t)
        (List.range cfg.nVels) s2 ?_ hs2
      intro s3 v2 _ hs3
      split
      · rw [fUpd_ne _ _ _ _ _ (fun hc => hne ⟨hc.1.symm, hc.2.1.symm⟩)]
        exact hs3
      · exact hs3
    · exact hs2
  refine foldl_phase _
    (fun s : FField => s i j v = coarse.f i j v)
    (fun s : FField => s i j v = if coarse.f i j v = 0 then
      (fine.f (2 * (i - x0)) (2 * (j - y0)) v +
       fine.f (2 * (i - x0) + 1) (2 * (j - y0)) v +
       fine.f (2 * (i - x0)) (2 * (j - y0) + 1) v +
       fine.f (2 * (i - x0) + 1) (2 * (j - y0) + 1) v) / (2 : ℚ) ^ 2
      else coarse.f i j v) i
    (intRange x0 x1) _ (nodup_intRange _ _) (mem_intRange.mpr ⟨hix, hix2⟩)
    ?_ ?_ ?_ rfl
  · intro s i2 _ hine hp
    refine foldl_pres _ (fun s2 : FField => s2 i j v = coarse.f i j v)
      (intRange y0 y1) s ?_ hp
    intro s2 j2 _ hp2
    exact hpresP i2 j2 (fun hc => hine hc.1) s2 _ hp2
  · intro s hp
    refine foldl_phase _
      (fun s2 : FField => s2 i j v = coarse.f i j v)
      (fun s2 : FField => s2 i j v = if coarse.f i j v = 0 then
        (fine.f (2 * (i - x0)) (2 * (j - y0)) v +
         fine.f (2 * (i - x0) + 1) (2 * (j - y0)) v +
         fine.f (2 * (i - x0)) (2 * (j - y0) + 1) v +
         fine.f (2 * (i - x0) + 1) (2 * (j - y0) + 1) v) / (2 : ℚ) ^ 2
        else coarse.f i j v) j
      (intRange y0 y1) s (nodup_intRange _ _) (mem_intRange.mpr ⟨hjy, hjy2⟩)
      ?_ ?_ ?_ hp
    · intro s2 j2 _ hjne hp2
      exact hpresP i j2 (fun hc => hjne hc.2) s2 _ hp2
    · intro s2 hp2
      show (coalesceSite cfg coarse fine x0 y0 s2 i j) i j v = _
      rw [coalesceSite, if_pos hty]
      simp only [getFineIndices]
      refine foldl_phase _
        (fun s3 : FField => s3 i j v = coarse.f i j v)
        (fun s3 : FField => s3 i j v = if coarse.f i j v = 0 then
          (fine.f (2 * (i - x0)) (2 * (j - y0)) v +
           fine.f (2 * (i - x0) + 1) (2 * (j - y0)) v +
           fine.f (2 * (i - x0)) (2 * (j - y0) + 1) v +
           fine.f (2 * (i - x0) + 1) (2 * (j - y0) + 1) v) / (2 : ℚ) ^ 2
          else coarse.f i j v) v
        (List.range cfg.nVels) s2 (List.nodup_range _) (List.mem_range.mpr hv)
        ?_ ?_ ?_ hp2
      · intro s3 v2 _ hvne hp3
        split
        · rw [fUpd_ne _ _ _ _ _ (fun hc => hvne hc.2.2.symm)]
          exact hp3
        · exact hp3
      · intro s3 hp3
        split
        · rename_i hz
          rw [hp3] at hz
          rw [fUpd_self, if_pos hz]
        · rename_i hz
          rw [hp3] at hz
          rw [hp3, if_neg hz]
      · intro s3 v2 _ hvne hq3
        split
        · rw [fUpd_ne _ _ _ _ _ (fun hc => hvne hc.2.2.symm)]
          exact hq3
        · exact hq3
    · intro s2 j2 _ hjne hq2
      exact hpresP i j2 (fun hc => hjne hc.2) s2 _ hq2
  · intro s i2 _ hine hq
    refine foldl_pres _ (fun s2 : FField => s2 i j v = _)
      (intRange y0 y1) s ?_ hq
    intro s2 j2 _ hq2
    exact hpresP i2 j2 (fun hc => hine hc.1) s2 _ hq2

/-- Witness for coalesceC4_mean: the coarse sentinel component at the
concrete pair of grids is replaced by the mean (1 + 2 + 3 + 6) / 4 = 3 of
the four fine siblings. -/
theorem coalesceC4_mean_witness :
    (LBM_coalesce cfgE coarseC fineC 0 0 0 0).f 0 0 0 = 3 := by
  have h := coalesceC4_mean cfgE coarseC fineC 0 0 0 0 0 0 0 (by decide)
    (by decide) (by decide) (by decide) (by decide) (by decide)
  rw [h]
  norm_num [coarseC, fineC, gW]

/-- C1 (amended): one driver invocation at a level executes the do-while body
once on level 0 and twice otherwise, advancing the tick counter by 1 or 2
accordingly; each body is collide, then per region an explode followed by one
recursive child invocation that runs the child body exactly twice, then the
level performs its own streaming, then coalesce for each region, and only
then the macroscopic recovery. -/
theorem lbmC1_driver (NumLev lvl t : ℕ) (cs : List GTree) :
    (LBM_multi NumLev lvl t (.node cs)
      = ((if lvl = 0 then LBM_multi_body NumLev lvl (.node cs)
          else LBM_multi_body NumLev lvl (.node cs) ++
            LBM_multi_body NumLev lvl (.node cs)),
         t + (if lvl = 0 then 1 else 2)))
    ∧ (∀ (reg : ℕ) (gchild : GTree) (rest : List GTree),
        LBM_multi_regions NumLev lvl reg (gchild :: rest)
          = Event.explode lvl reg ::
            ((LBM_multi_body NumLev (lvl + 1) gchild ++
              LBM_multi_body NumLev (lvl + 1) gchild) ++
             LBM_multi_regions NumLev lvl (reg + 1) rest))
    ∧ (LBM_multi_body NumLev lvl (.node cs)
        = [Event.collide lvl] ++
          (if lvl < NumLev then
            LBM_multi_regions NumLev lvl 0 cs ++ [Event.stream lvl] ++
              (List.range cs.length).map (Event.coalesce lvl)
          else [Event.stream lvl]) ++ [Event.macroEv lvl]) := by
  refine ⟨?_, ?_, rfl⟩
  · by_cases h : lvl = 0 <;> simp [LBM_multi, LBM_multi_body, h]
  · intro reg gchild rest
    cases gchild with
    | node cs2 => simp [LBM_multi_regions, LBM_multi, LBM_multi_body]

/-- Counterexample to C1 as stated: on the two-level hierarchy the root body
streams before it coalesces, so the trace differs from the order the claim
demands, in which coalescing precedes the streaming of the level. -/
theorem lbmC1_counterexample :
    (LBM_multi 1 0 0 ctree).1
      = [Event.collide 0, Event.explode 0 0, Event.collide 1, Event.stream 1,
         Event.macroEv 1, Event.collide 1, Event.stream 1, Event.macroEv 1,
         Event.stream 0, Event.coalesce 0 0, Event.macroEv 0]
    ∧ (LBM_multi 1 0 0 ctree).1
      ≠ [Event.collide 0, Event.explode 0 0, Event.collide 1, Event.stream 1,
         Event.macroEv 1, Event.collide 1, Event.stream 1, Event.macroEv 1,
         Event.coalesce 0 0, Event.stream 0, Event.macroEv 0] := by decide
